import Mathlib

/-!
Verification of the Wade-Giles to Pinyin conversion engine
(`wg_to_pinyin.py`) against its natural-language specification.

Strings are modelled as `List Char`.  Python's per-character case
operations (`str.upper`, `str.lower`, `str.isupper`, `str.islower`) are
modelled by finite case tables covering the character universe the
program works with: the ASCII letters plus the non-ASCII letters that
appear in the program's data (u-umlaut and the circumflex, breve and
macron vowels).  All other characters are caseless, as they are in
Python for the program's data.
-/

/-- The (lowercase, uppercase) pairs of the modelled character universe:
the 26 ASCII letters, u-umlaut, and the circumflex/breve/macron vowels
that `normalize_diacritics` handles. -/
def CASE_PAIRS : List (Char × Char) :=
  [('a', 'A'), ('b', 'B'), ('c', 'C'), ('d', 'D'), ('e', 'E'), ('f', 'F'),
   ('g', 'G'), ('h', 'H'), ('i', 'I'), ('j', 'J'), ('k', 'K'), ('l', 'L'),
   ('m', 'M'), ('n', 'N'), ('o', 'O'), ('p', 'P'), ('q', 'Q'), ('r', 'R'),
   ('s', 'S'), ('t', 'T'), ('u', 'U'), ('v', 'V'), ('w', 'W'), ('x', 'X'),
   ('y', 'Y'), ('z', 'Z'), ('ü', 'Ü'),
   ('â', 'Â'), ('ê', 'Ê'), ('î', 'Î'), ('ô', 'Ô'), ('û', 'Û'),
   ('ă', 'Ă'), ('ĕ', 'Ĕ'), ('ĭ', 'Ĭ'), ('ŏ', 'Ŏ'), ('ŭ', 'Ŭ'),
   ('ā', 'Ā'), ('ē', 'Ē'), ('ī', 'Ī'), ('ō', 'Ō'), ('ū', 'Ū')]

/-- Association-list lookup (first binding wins), mirroring a Python
dict lookup over an insertion-ordered association list. -/
def alookup {α β : Type} [DecidableEq α] (k : α) : List (α × β) → Option β
  | [] => none
  | (a, b) :: rest => if a = k then some b else alookup k rest

/-- The (uppercase, lowercase) pairs, i.e. `CASE_PAIRS` swapped. -/
def CASE_PAIRS_INV : List (Char × Char) := CASE_PAIRS.map (fun p => (p.2, p.1))

/-- Python `str.upper` on one character of the modelled universe. -/
def pyUpper (c : Char) : Char := (alookup c CASE_PAIRS).getD c

/-- Python `str.lower` on one character of the modelled universe. -/
def pyLower (c : Char) : Char := (alookup c CASE_PAIRS_INV).getD c

/-- Python `ch.isupper()` for one character: it is a cased character in
uppercase form. -/
def pyIsUpper (c : Char) : Bool := (alookup c CASE_PAIRS_INV).isSome

/-- Python `ch.islower()` for one character. -/
def pyIsLower (c : Char) : Bool := (alookup c CASE_PAIRS).isSome

/-- A cased character (has an upper and a lower form). -/
def pyIsCased (c : Char) : Bool := pyIsUpper c || pyIsLower c

/-- Python `s.islower()` for a string: at least one cased character and
no uppercase character. -/
def pyStrIsLower (s : List Char) : Bool :=
  s.any (fun c => pyIsCased c) && s.all (fun c => !pyIsUpper c)

/-- `[a-zA-Z]`, the character class used by the single-syllable
pattern's word-boundary lookarounds. -/
def isAsciiLetter (c : Char) : Bool :=
  ('a' ≤ c && c ≤ 'z') || ('A' ≤ c && c ≤ 'Z')

/- ### Normalizers -/

/-- Python `text.replace(pat, rep)` for a one-character pattern and
one-character replacement: a per-character map. -/
def replaceChar (pat rep : Char) (s : List Char) : List Char :=
  s.map (fun c => if c = pat then rep else c)

/-- Python `text.replace(", ", chr 39)`.  The first entry of the
`apostrophes` list in `normalize_apostrophe` is written `[''', ''',`
in the source, which Python parses as one triple-quoted string whose
value is a comma followed by a space; so the first replacement rewrites
every comma-space pair to an ASCII apostrophe.  Scanning is from the
left, resuming after each replacement, as `str.replace` does. -/
def replaceCommaSpace : List Char → List Char
  | [] => []
  | [c] => [c]
  | c1 :: c2 :: rest =>
    if c1 = ',' ∧ c2 = ' ' then '\'' :: replaceCommaSpace rest
    else c1 :: replaceCommaSpace (c2 :: rest)

/-- The single-character members of the `apostrophes` list in
`normalize_apostrophe`, in source order: backtick, acute accent,
U+02BC and U+02BB (each of the last two listed twice in the source,
once literally and once as an escape). -/
def APOSTROPHE_SINGLE_VARIANTS : List Char := ['`', '´', 'ʼ', 'ʻ', 'ʼ', 'ʻ']

/-- `normalize_apostrophe`: replace the comma-space artifact and then
each single-character apostrophe variant with an ASCII apostrophe,
in the source's order. -/
def normalize_apostrophe (s : List Char) : List Char :=
  APOSTROPHE_SINGLE_VARIANTS.foldl (fun t a => replaceChar a '\'' t)
    (replaceCommaSpace s)

/-- The `diacritic_map` of `normalize_diacritics`, in source order:
circumflex, breve and macron vowels mapped to their bare forms
(the umlaut is deliberately not included). -/
def DIACRITIC_PAIRS : List (Char × Char) :=
  [('Â', 'A'), ('Ê', 'E'), ('Î', 'I'), ('Ô', 'O'), ('Û', 'U'),
   ('â', 'a'), ('ê', 'e'), ('î', 'i'), ('ô', 'o'), ('û', 'u'),
   ('Ă', 'A'), ('Ĕ', 'E'), ('Ĭ', 'I'), ('Ŏ', 'O'), ('Ŭ', 'U'),
   ('ă', 'a'), ('ĕ', 'e'), ('ĭ', 'i'), ('ŏ', 'o'), ('ŭ', 'u'),
   ('Ā', 'A'), ('Ē', 'E'), ('Ī', 'I'), ('Ō', 'O'), ('Ū', 'U'),
   ('ā', 'a'), ('ē', 'e'), ('ī', 'i'), ('ō', 'o'), ('ū', 'u')]

/-- `normalize_diacritics`: one `str.replace` per `diacritic_map`
entry, in insertion order. -/
def normalize_diacritics (s : List Char) : List Char :=
  DIACRITIC_PAIRS.foldl (fun t p => replaceChar p.1 p.2 t) s

/- ### Generic facts about chains of single-character replaces -/

/-- The per-character function computed by a left-to-right chain of
single-character replaces. -/
def chainFun : List (Char × Char) → Char → Char
  | [], c => c
  | (a, b) :: rest, c => chainFun rest (if c = a then b else c)

theorem chainFun_nil (c : Char) : chainFun [] c = c := rfl

theorem chainFun_cons (a b : Char) (rest : List (Char × Char)) (c : Char) :
    chainFun ((a, b) :: rest) c = chainFun rest (if c = a then b else c) := rfl

attribute [irreducible] chainFun

theorem foldl_replaceChar_eq_map (p : List (Char × Char)) (s : List Char) :
    p.foldl (fun t x => replaceChar x.1 x.2 t) s = s.map (chainFun p) := by
  induction p generalizing s with
  | nil =>
    rw [List.foldl_nil, funext chainFun_nil]
    exact (List.map_id' s).symm
  | cons hd tl ih =>
    obtain ⟨a, b⟩ := hd
    rw [List.foldl_cons, ih]
    unfold replaceChar
    rw [List.map_map]
    exact congrArg (fun f => List.map f s)
      (funext (fun c => by simp only [Function.comp_apply, chainFun_cons]))

theorem chainFun_fix_of_not_key {p : List (Char × Char)} {c : Char}
    (h : c ∉ p.map Prod.fst) : chainFun p c = c := by
  induction p with
  | nil => exact chainFun_nil c
  | cons hd tl ih =>
    obtain ⟨a, b⟩ := hd
    simp only [List.map_cons, List.mem_cons] at h
    push_neg at h
    rw [chainFun_cons, if_neg h.1]
    exact ih h.2

theorem chainFun_fix_or_value (p : List (Char × Char)) (c : Char) :
    chainFun p c = c ∨ chainFun p c ∈ p.map Prod.snd := by
  induction p generalizing c with
  | nil => exact Or.inl (chainFun_nil c)
  | cons hd tl ih =>
    obtain ⟨a, b⟩ := hd
    rw [chainFun_cons]
    by_cases hc : c = a
    · rw [if_pos hc]
      rcases ih b with h | h
      · exact Or.inr (by simp [h])
      · exact Or.inr (by simp [h])
    · rw [if_neg hc]
      rcases ih c with h | h
      · exact Or.inl h
      · exact Or.inr (by simp [h])

theorem chainFun_idem {p : List (Char × Char)}
    (hvk : ∀ v ∈ p.map Prod.snd, v ∉ p.map Prod.fst) (c : Char) :
    chainFun p (chainFun p c) = chainFun p c := by
  rcases chainFun_fix_or_value p c with h | h
  · rw [h, h]
  · exact chainFun_fix_of_not_key (hvk _ h)

/- ### Idempotence of the normalizers -/

/-- Whether a comma-space pair occurs anywhere in the string. -/
def hasCommaSpace : List Char → Bool
  | [] => false
  | [_] => false
  | c1 :: c2 :: rest => (c1 = ',' && c2 = ' ') || hasCommaSpace (c2 :: rest)

theorem hasCommaSpace_cons (a : Char) (l : List Char)
    (h : ∀ x ∈ l.head?, ¬(a = ',' ∧ x = ' ')) :
    hasCommaSpace (a :: l) = hasCommaSpace l := by
  cases l with
  | nil => simp [hasCommaSpace]
  | cons x ys =>
    have hx : ¬(a = ',' ∧ x = ' ') := h x (by simp)
    have hfalse : (decide (a = ',') && decide (x = ' ')) = false := by
      by_cases h1 : a = ','
      · by_cases h2 : x = ' '
        · exact absurd ⟨h1, h2⟩ hx
        · simp [h2]
      · simp [h1]
    simp only [hasCommaSpace, hfalse, Bool.false_or]

theorem replaceCommaSpace_head (l : List Char) :
    (replaceCommaSpace l).head? = l.head? ∨
      (replaceCommaSpace l).head? = some '\'' := by
  match l with
  | [] => exact Or.inl rfl
  | [c] => exact Or.inl rfl
  | c1 :: c2 :: rest =>
    by_cases h : c1 = ',' ∧ c2 = ' '
    · right; simp [replaceCommaSpace, if_pos h]
    · left; simp [replaceCommaSpace, if_neg h]

theorem hasCommaSpace_replaceCommaSpace (l : List Char) :
    hasCommaSpace (replaceCommaSpace l) = false := by
  match l with
  | [] => simp [replaceCommaSpace, hasCommaSpace]
  | [c] => simp [replaceCommaSpace, hasCommaSpace]
  | c1 :: c2 :: rest =>
    by_cases h : c1 = ',' ∧ c2 = ' '
    · rw [show replaceCommaSpace (c1 :: c2 :: rest)
            = '\'' :: replaceCommaSpace rest by simp [replaceCommaSpace, if_pos h]]
      rw [hasCommaSpace_cons _ _ (by intro x _ hc; exact absurd hc.1 (by decide))]
      exact hasCommaSpace_replaceCommaSpace rest
    · rw [show replaceCommaSpace (c1 :: c2 :: rest)
            = c1 :: replaceCommaSpace (c2 :: rest) by simp [replaceCommaSpace, if_neg h]]
      have htail := hasCommaSpace_replaceCommaSpace (c2 :: rest)
      by_cases hc1 : c1 = ','
      · have hc2 : ¬(c2 = ' ') := fun hc2 => h ⟨hc1, hc2⟩
        rw [hasCommaSpace_cons]
        · exact htail
        · intro x hx hcontr
          rcases replaceCommaSpace_head (c2 :: rest) with hh | hh
          · rw [hh] at hx; simp at hx; exact hc2 (hx ▸ hcontr.2)
          · rw [hh] at hx; simp at hx; subst hx
            exact absurd hcontr.2 (by decide)
      · rw [hasCommaSpace_cons _ _ (fun x _ hcontr => hc1 hcontr.1)]
        exact htail
termination_by l.length
decreasing_by all_goals (simp; try omega)

theorem replaceCommaSpace_fix (l : List Char)
    (h : hasCommaSpace l = false) : replaceCommaSpace l = l := by
  match l with
  | [] => rfl
  | [c] => rfl
  | c1 :: c2 :: rest =>
    simp only [hasCommaSpace, Bool.or_eq_false_iff, Bool.and_eq_false_iff] at h
    have hcs : ¬(c1 = ',' ∧ c2 = ' ') := by
      intro hc
      rcases h.1 with h1 | h1 <;> simp [hc.1, hc.2] at h1
    simp only [replaceCommaSpace, if_neg hcs]
    rw [replaceCommaSpace_fix (c2 :: rest) h.2]
termination_by l.length
decreasing_by all_goals simp

/-- The apostrophe-variant replaces as (pattern, replacement) pairs. -/
def APOS_REPLACE_PAIRS : List (Char × Char) :=
  APOSTROPHE_SINGLE_VARIANTS.map (fun a => (a, '\''))

theorem normalize_apostrophe_eq (s : List Char) :
    normalize_apostrophe s
      = (replaceCommaSpace s).map (chainFun APOS_REPLACE_PAIRS) :=
  foldl_replaceChar_eq_map APOS_REPLACE_PAIRS (replaceCommaSpace s)

theorem hasCommaSpace_map (g : Char → Char) (l : List Char)
    (hg : ∀ c, (g c = ',' → c = ',') ∧ (g c = ' ' → c = ' '))
    (h : hasCommaSpace l = false) : hasCommaSpace (l.map g) = false := by
  match l with
  | [] => rfl
  | [c] => rfl
  | c1 :: c2 :: rest =>
    simp only [hasCommaSpace, Bool.or_eq_false_iff] at h
    obtain ⟨h1, h2⟩ := h
    have hmap := hasCommaSpace_map g (c2 :: rest) hg h2
    simp only [List.map_cons] at hmap ⊢
    simp only [hasCommaSpace, hmap, Bool.or_false]
    by_cases hgc : g c1 = ','
    · have hc1 : c1 = ',' := (hg c1).1 hgc
      have hc2 : ¬(c2 = ' ') := by
        intro hc2; rw [hc1, hc2] at h1; simp at h1
      have hgc2 : ¬(g c2 = ' ') := fun hx => hc2 ((hg c2).2 hx)
      simp [hgc2]
    · simp [hgc]
termination_by l.length
decreasing_by all_goals simp

/-- C6 helper: the apostrophe-chain function maps no character to a
comma or space, and its outputs are never patterns of the chain. -/
theorem aposChain_safe :
    (∀ v ∈ APOS_REPLACE_PAIRS.map Prod.snd, v ∉ APOS_REPLACE_PAIRS.map Prod.fst)
      ∧ ∀ v ∈ APOS_REPLACE_PAIRS.map Prod.snd, v ≠ ',' ∧ v ≠ ' ' := by
  decide

theorem normalize_apostrophe_idem (s : List Char) :
    normalize_apostrophe (normalize_apostrophe s) = normalize_apostrophe s := by
  have hchain : ∀ c, (chainFun APOS_REPLACE_PAIRS c = ','  → c = ',')
      ∧ (chainFun APOS_REPLACE_PAIRS c = ' ' → c = ' ') := by
    intro c
    rcases chainFun_fix_or_value APOS_REPLACE_PAIRS c with h | h
    · rw [h]; exact ⟨fun h => h, fun h => h⟩
    · have := aposChain_safe.2 _ h
      exact ⟨fun hc => absurd hc this.1, fun hc => absurd hc this.2⟩
  have hfix : replaceCommaSpace (normalize_apostrophe s) = normalize_apostrophe s := by
    apply replaceCommaSpace_fix
    rw [normalize_apostrophe_eq s]
    exact hasCommaSpace_map _ _ hchain (hasCommaSpace_replaceCommaSpace s)
  calc normalize_apostrophe (normalize_apostrophe s)
      = (replaceCommaSpace (normalize_apostrophe s)).map (chainFun APOS_REPLACE_PAIRS) :=
        normalize_apostrophe_eq _
    _ = (normalize_apostrophe s).map (chainFun APOS_REPLACE_PAIRS) := by rw [hfix]
    _ = ((replaceCommaSpace s).map (chainFun APOS_REPLACE_PAIRS)).map
          (chainFun APOS_REPLACE_PAIRS) := by rw [normalize_apostrophe_eq s]
    _ = (replaceCommaSpace s).map
          (chainFun APOS_REPLACE_PAIRS ∘ chainFun APOS_REPLACE_PAIRS) := List.map_map ..
    _ = (replaceCommaSpace s).map (chainFun APOS_REPLACE_PAIRS) :=
        congrArg (fun f => List.map f (replaceCommaSpace s))
          (funext (fun c => chainFun_idem aposChain_safe.1 c))
    _ = normalize_apostrophe s := (normalize_apostrophe_eq s).symm

theorem normalize_diacritics_eq (s : List Char) :
    normalize_diacritics s = s.map (chainFun DIACRITIC_PAIRS) :=
  foldl_replaceChar_eq_map DIACRITIC_PAIRS s

theorem diaChain_safe :
    ∀ v ∈ DIACRITIC_PAIRS.map Prod.snd, v ∉ DIACRITIC_PAIRS.map Prod.fst := by
  decide

theorem normalize_diacritics_idem (s : List Char) :
    normalize_diacritics (normalize_diacritics s) = normalize_diacritics s := by
  calc normalize_diacritics (normalize_diacritics s)
      = (normalize_diacritics s).map (chainFun DIACRITIC_PAIRS) :=
        normalize_diacritics_eq _
    _ = (s.map (chainFun DIACRITIC_PAIRS)).map (chainFun DIACRITIC_PAIRS) := by
        rw [normalize_diacritics_eq s]
    _ = s.map (chainFun DIACRITIC_PAIRS ∘ chainFun DIACRITIC_PAIRS) := List.map_map ..
    _ = s.map (chainFun DIACRITIC_PAIRS) :=
        congrArg (fun f => List.map f s) (funext (fun c => chainFun_idem diaChain_safe c))
    _ = normalize_diacritics s := (normalize_diacritics_eq s).symm

/-- C6: `normalize_apostrophe` and `normalize_diacritics` are pure,
total functions and both are idempotent. -/
theorem normalizers_idempotent (s : List Char) :
    normalize_apostrophe (normalize_apostrophe s) = normalize_apostrophe s
      ∧ normalize_diacritics (normalize_diacritics s) = normalize_diacritics s :=
  ⟨normalize_apostrophe_idem s, normalize_diacritics_idem s⟩

/- ### Case transfer (`apply_case`) -/

/-- One transferred character: the replacement character `t` takes the
case of the source character `c`. -/
def applyCaseStep (c t : Char) : Char :=
  if pyIsUpper c then pyUpper t else pyLower t

/-- Whether `apply_case` skips a source character when aligning
positions.  The skip set in the source is the string of an ASCII
apostrophe (written twice) and a hyphen. -/
def applyCaseSkip (c : Char) : Bool := c = '\'' || c = '-'

/-- The main loop of `apply_case`: walk the source; skip apostrophes
and hyphens; transfer the case of each remaining source character onto
the next target character; stop when the target is exhausted.  Returns
the transferred prefix and the unconsumed tail of the target. -/
def acLoop : List Char → List Char → List Char × List Char
  | [], ts => ([], ts)
  | _ :: _, [] => ([], [])
  | c :: src, t :: ts =>
    if applyCaseSkip c then acLoop src (t :: ts)
    else
      let p := acLoop src ts
      (applyCaseStep c t :: p.1, p.2)

/-- `apply_case(source, target)`: apply the capitalization pattern of
`source` to `target`.  If the target is not exhausted by the loop, the
remaining target characters take the case of the last character of the
source (`source[-1]` in the code). -/
def apply_case (source target : List Char) : List Char :=
  if source = [] ∨ target = [] then target
  else
    (acLoop source target).1
      ++ (if (acLoop source target).2 = [] then []
          else if pyIsUpper (source.getLastD ' ')
          then (acLoop source target).2.map pyUpper
          else (acLoop source target).2.map pyLower)

/-- Modelled from the spec (§4.5 as amended): the case transfer zips
the non-skipped source characters with the target, and any remaining
target characters inherit the case of the last source character. -/
def applyCaseSpec (source target : List Char) : List Char :=
  if source = [] ∨ target = [] then target
  else
    List.zipWith applyCaseStep (source.filter (fun c => !applyCaseSkip c)) target
      ++ (if pyIsUpper (source.getLastD ' ')
          then (target.drop (source.filter (fun c => !applyCaseSkip c)).length).map pyUpper
          else (target.drop (source.filter (fun c => !applyCaseSkip c)).length).map pyLower)

theorem acLoop_eq (src : List Char) : ∀ tgt : List Char,
    acLoop src tgt
      = (List.zipWith applyCaseStep (src.filter (fun c => !applyCaseSkip c)) tgt,
         tgt.drop (src.filter (fun c => !applyCaseSkip c)).length) := by
  induction src with
  | nil => intro tgt; simp [acLoop]
  | cons c src ih =>
    intro tgt
    cases tgt with
    | nil =>
      simp only [acLoop, List.zipWith_nil_right, List.drop_nil]
    | cons t ts =>
      by_cases hc : applyCaseSkip c
      · rw [show acLoop (c :: src) (t :: ts) = acLoop src (t :: ts) by
            simp [acLoop, hc]]
        rw [ih (t :: ts)]
        simp [List.filter_cons, hc]
      · rw [show acLoop (c :: src) (t :: ts)
              = (applyCaseStep c t :: (acLoop src ts).1, (acLoop src ts).2) by
            simp [acLoop, hc]]
        rw [ih ts]
        simp [List.filter_cons, hc]

theorem apply_case_eq_spec (source target : List Char) :
    apply_case source target = applyCaseSpec source target := by
  unfold apply_case applyCaseSpec
  by_cases h : source = [] ∨ target = []
  · rw [if_pos h, if_pos h]
  · rw [if_neg h, if_neg h, acLoop_eq]
    by_cases hrem : target.drop (source.filter (fun c => !applyCaseSkip c)).length = []
    · rw [hrem]
      simp
    · simp only [if_neg hrem]

theorem pyUpper_getD_none (c : Char) (h : alookup c CASE_PAIRS = none) :
    pyUpper c = c := by
  unfold pyUpper
  rw [h]
  rfl

/- C10 helper lemmas: lowercasing after a case map gives the original
lowercase form, for every character of the modelled universe. -/

theorem alookup_mem {α β : Type} [DecidableEq α] {k : α} {v : β} :
    ∀ {l : List (α × β)}, alookup k l = some v → (k, v) ∈ l := by
  intro l
  induction l with
  | nil => intro h; simp [alookup] at h
  | cons hd tl ih =>
    obtain ⟨a, b⟩ := hd
    intro h
    by_cases ha : a = k
    · rw [alookup, if_pos ha] at h
      subst ha
      obtain rfl : b = v := by simpa using h
      exact List.mem_cons_self _ _
    · rw [alookup, if_neg ha] at h
      exact List.mem_cons_of_mem _ (ih h)

theorem case_pairs_facts :
    (∀ p ∈ CASE_PAIRS, pyLower p.2 = p.1 ∧ pyLower p.1 = p.1 ∧ pyUpper p.1 = p.2)
      ∧ (∀ p ∈ CASE_PAIRS_INV, pyLower p.2 = p.2 ∧ pyLower p.1 = p.2) := by
  decide

theorem pyLower_pyUpper (c : Char) : pyLower (pyUpper c) = pyLower c := by
  rcases h : alookup c CASE_PAIRS with _ | u
  · rw [pyUpper_getD_none c h]
  · have hm := alookup_mem h
    have hf := case_pairs_facts.1 _ hm
    have hu : pyUpper c = u := by
      unfold pyUpper
      rw [h]
      rfl
    rw [hu, hf.1, hf.2.1]

theorem pyLower_pyLower (c : Char) : pyLower (pyLower c) = pyLower c := by
  rcases h : alookup c CASE_PAIRS_INV with _ | l
  · have hc : pyLower c = c := by
      unfold pyLower
      rw [h]
      rfl
    rw [hc]
    exact hc
  · have hm := alookup_mem h
    have hf := case_pairs_facts.2 _ hm
    have hc : pyLower c = l := by
      unfold pyLower
      rw [h]
      rfl
    rw [hc]
    exact hf.1

theorem zipWith_applyCaseStep_lower (fs : List Char) : ∀ t : List Char,
    (List.zipWith applyCaseStep fs t).map pyLower = (t.take fs.length).map pyLower := by
  induction fs with
  | nil => intro t; simp
  | cons c fs ih =>
    intro t
    cases t with
    | nil => simp
    | cons t0 ts =>
      simp only [List.zipWith_cons_cons, List.map_cons, List.length_cons,
        List.take_succ_cons]
      rw [ih ts]
      congr 1
      unfold applyCaseStep
      by_cases hu : pyIsUpper c
      · rw [if_pos hu, pyLower_pyUpper]
      · rw [if_neg hu, pyLower_pyLower]

/-- C10: the case transfer only changes letter case.  Lowercasing the
result of `apply_case` gives the lowercased target for every source and
target, so no character of the replacement is added, dropped or
substituted — also when the source or target is empty or the source is
all apostrophes and hyphens. -/
theorem apply_case_preserves_lowercase (source target : List Char) :
    (apply_case source target).map pyLower = target.map pyLower := by
  rw [apply_case_eq_spec]
  unfold applyCaseSpec
  by_cases h : source = [] ∨ target = []
  · rw [if_pos h]
  · rw [if_neg h, List.map_append, zipWith_applyCaseStep_lower]
    by_cases hu : pyIsUpper (source.getLastD ' ')
    · rw [if_pos hu, List.map_map,
        show pyLower ∘ pyUpper = pyLower from funext pyLower_pyUpper,
        ← List.map_append, List.take_append_drop]
    · rw [if_neg hu, List.map_map,
        show pyLower ∘ pyLower = pyLower from funext pyLower_pyLower,
        ← List.map_append, List.take_append_drop]

/-- C3 counterexample: the claim says remaining target characters
inherit the case of the last *consumed* source character.  For source
`A'` (last consumed character `A`, uppercase) and target `abc` the
claim predicts `ABC`, but the code consults `source[-1]`, the
apostrophe, which is not uppercase, and produces `Abc`. -/
theorem apply_case_last_consumed_counterexample :
    apply_case "A'".data "abc".data = "Abc".data
      ∧ "Abc".data ≠ "ABC".data := by
  constructor
  · decide
  · decide

/-- C3 (amended): `apply_case` copies the per-character case of the
source onto the target, skipping apostrophes and hyphens in the source
without consuming a target character; when the source runs out before
the target is filled, every remaining target character inherits the
case of the last character of the source (uppercase if that character
is uppercase, lowercase otherwise).  `applyCaseSpec` is that
description written out directly; the examples are the spec's. -/
theorem apply_case_spec_correspondence :
    (∀ source target : List Char, apply_case source target = applyCaseSpec source target)
      ∧ apply_case "CH'IEN".data "qian".data = "QIAN".data
      ∧ apply_case "Chien".data "jian".data = "Jian".data
      ∧ apply_case "chien".data "jian".data = "jian".data :=
  ⟨apply_case_eq_spec, by decide, by decide, by decide⟩

/- ### The syllable table and its merge -/

/-- The core Wade-Giles dictionary literal `WG_TO_PINYIN` of the source,
as an insertion-ordered association list. -/
def WG_CORE : List (String × String) := [
  ("a", "a"),
  ("ai", "ai"),
  ("an", "an"),
  ("ang", "ang"),
  ("ao", "ao"),
  ("cha", "zha"),
  ("chai", "zhai"),
  ("chan", "zhan"),
  ("chang", "zhang"),
  ("chao", "zhao"),
  ("che", "zhe"),
  ("chen", "zhen"),
  ("cheng", "zheng"),
  ("chi", "ji"),
  ("chia", "jia"),
  ("chiang", "jiang"),
  ("chiao", "jiao"),
  ("chieh", "jie"),
  ("chien", "jian"),
  ("chih", "zhi"),
  ("chin", "jin"),
  ("ching", "jing"),
  ("chiu", "jiu"),
  ("chiung", "jiong"),
  ("cho", "zhuo"),
  ("chou", "zhou"),
  ("chu", "zhu"),
  ("chua", "zhua"),
  ("chuai", "zhuai"),
  ("chuan", "zhuan"),
  ("chuang", "zhuang"),
  ("chui", "zhui"),
  ("chun", "zhun"),
  ("chung", "zhong"),
  ("chü", "ju"),
  ("chüan", "juan"),
  ("chüeh", "jue"),
  ("chün", "jun"),
  ("ch'a", "cha"),
  ("ch'ai", "chai"),
  ("ch'an", "chan"),
  ("ch'ang", "chang"),
  ("ch'ao", "chao"),
  ("ch'e", "che"),
  ("ch'en", "chen"),
  ("ch'eng", "cheng"),
  ("ch'i", "qi"),
  ("ch'ia", "qia"),
  ("ch'iang", "qiang"),
  ("ch'iao", "qiao"),
  ("ch'ieh", "qie"),
  ("ch'ien", "qian"),
  ("ch'ih", "chi"),
  ("ch'in", "qin"),
  ("ch'ing", "qing"),
  ("ch'iu", "qiu"),
  ("ch'iung", "qiong"),
  ("ch'o", "chuo"),
  ("ch'ou", "chou"),
  ("ch'u", "chu"),
  ("ch'uai", "chuai"),
  ("ch'uan", "chuan"),
  ("ch'uang", "chuang"),
  ("ch'ui", "chui"),
  ("ch'un", "chun"),
  ("ch'ung", "chong"),
  ("ch'ü", "qu"),
  ("ch'üan", "quan"),
  ("ch'üeh", "que"),
  ("ch'ün", "qun"),
  ("en", "en"),
  ("erh", "er"),
  ("er", "er"),
  ("fa", "fa"),
  ("fan", "fan"),
  ("fang", "fang"),
  ("fei", "fei"),
  ("fen", "fen"),
  ("feng", "feng"),
  ("fo", "fo"),
  ("fou", "fou"),
  ("fu", "fu"),
  ("ha", "ha"),
  ("hai", "hai"),
  ("han", "han"),
  ("hang", "hang"),
  ("hao", "hao"),
  ("hei", "hei"),
  ("hen", "hen"),
  ("heng", "heng"),
  ("ho", "he"),
  ("hou", "hou"),
  ("hu", "hu"),
  ("hua", "hua"),
  ("huai", "huai"),
  ("huan", "huan"),
  ("huang", "huang"),
  ("hui", "hui"),
  ("hun", "hun"),
  ("hung", "hong"),
  ("huo", "huo"),
  ("hsi", "xi"),
  ("hsia", "xia"),
  ("hsiang", "xiang"),
  ("hsiao", "xiao"),
  ("hsieh", "xie"),
  ("hsien", "xian"),
  ("hsin", "xin"),
  ("hsing", "xing"),
  ("hsiu", "xiu"),
  ("hsiung", "xiong"),
  ("hsü", "xu"),
  ("hsüan", "xuan"),
  ("hsüeh", "xue"),
  ("hsün", "xun"),
  ("i", "yi"),
  ("jan", "ran"),
  ("jang", "rang"),
  ("jao", "rao"),
  ("je", "re"),
  ("jen", "ren"),
  ("jeng", "reng"),
  ("jih", "ri"),
  ("jo", "ruo"),
  ("jou", "rou"),
  ("ju", "ru"),
  ("juan", "ruan"),
  ("jui", "rui"),
  ("jun", "run"),
  ("jung", "rong"),
  ("ka", "ga"),
  ("kai", "gai"),
  ("kan", "gan"),
  ("kang", "gang"),
  ("kao", "gao"),
  ("kei", "gei"),
  ("ken", "gen"),
  ("keng", "geng"),
  ("ko", "ge"),
  ("kou", "gou"),
  ("ku", "gu"),
  ("kua", "gua"),
  ("kuai", "guai"),
  ("kuan", "guan"),
  ("kuang", "guang"),
  ("kuei", "gui"),
  ("kun", "gun"),
  ("kung", "gong"),
  ("kuo", "guo"),
  ("k'a", "ka"),
  ("k'ai", "kai"),
  ("k'an", "kan"),
  ("k'ang", "kang"),
  ("k'ao", "kao"),
  ("k'en", "ken"),
  ("k'eng", "keng"),
  ("k'o", "ke"),
  ("k'ou", "kou"),
  ("k'u", "ku"),
  ("k'ua", "kua"),
  ("k'uai", "kuai"),
  ("k'uan", "kuan"),
  ("k'uang", "kuang"),
  ("k'uei", "kui"),
  ("k'un", "kun"),
  ("k'ung", "kong"),
  ("k'uo", "kuo"),
  ("la", "la"),
  ("lai", "lai"),
  ("lan", "lan"),
  ("lang", "lang"),
  ("lao", "lao"),
  ("le", "le"),
  ("lei", "lei"),
  ("leng", "leng"),
  ("li", "li"),
  ("liang", "liang"),
  ("liao", "liao"),
  ("lieh", "lie"),
  ("lien", "lian"),
  ("lin", "lin"),
  ("ling", "ling"),
  ("liu", "liu"),
  ("lo", "luo"),
  ("lou", "lou"),
  ("lu", "lu"),
  ("luan", "luan"),
  ("lun", "lun"),
  ("lung", "long"),
  ("lü", "lü"),
  ("lüan", "luan"),
  ("lüeh", "lue"),
  ("ma", "ma"),
  ("mai", "mai"),
  ("man", "man"),
  ("mang", "mang"),
  ("mao", "mao"),
  ("mei", "mei"),
  ("men", "men"),
  ("meng", "meng"),
  ("mi", "mi"),
  ("miao", "miao"),
  ("mieh", "mie"),
  ("mien", "mian"),
  ("min", "min"),
  ("ming", "ming"),
  ("miu", "miu"),
  ("mo", "mo"),
  ("mou", "mou"),
  ("mu", "mu"),
  ("na", "na"),
  ("nai", "nai"),
  ("nan", "nan"),
  ("nang", "nang"),
  ("nao", "nao"),
  ("nei", "nei"),
  ("nen", "nen"),
  ("neng", "neng"),
  ("ni", "ni"),
  ("niang", "niang"),
  ("niao", "niao"),
  ("nieh", "nie"),
  ("nien", "nian"),
  ("nin", "nin"),
  ("ning", "ning"),
  ("niu", "niu"),
  ("no", "nuo"),
  ("nu", "nu"),
  ("nuan", "nuan"),
  ("nung", "nong"),
  ("nü", "nü"),
  ("nüeh", "nue"),
  ("o", "e"),
  ("ou", "ou"),
  ("pa", "ba"),
  ("pai", "bai"),
  ("pan", "ban"),
  ("pang", "bang"),
  ("pao", "bao"),
  ("pei", "bei"),
  ("pen", "ben"),
  ("peng", "beng"),
  ("pi", "bi"),
  ("piao", "biao"),
  ("pieh", "bie"),
  ("pien", "bian"),
  ("pin", "bin"),
  ("ping", "bing"),
  ("po", "bo"),
  ("pu", "bu"),
  ("p'a", "pa"),
  ("p'ai", "pai"),
  ("p'an", "pan"),
  ("p'ang", "pang"),
  ("p'ao", "pao"),
  ("p'ei", "pei"),
  ("p'en", "pen"),
  ("p'eng", "peng"),
  ("p'i", "pi"),
  ("p'iao", "piao"),
  ("p'ieh", "pie"),
  ("p'ien", "pian"),
  ("p'in", "pin"),
  ("p'ing", "ping"),
  ("p'o", "po"),
  ("p'ou", "pou"),
  ("p'u", "pu"),
  ("sa", "sa"),
  ("sai", "sai"),
  ("san", "san"),
  ("sang", "sang"),
  ("sao", "sao"),
  ("se", "se"),
  ("sen", "sen"),
  ("seng", "seng"),
  ("sha", "sha"),
  ("shai", "shai"),
  ("shan", "shan"),
  ("shang", "shang"),
  ("shao", "shao"),
  ("she", "she"),
  ("shen", "shen"),
  ("sheng", "sheng"),
  ("shih", "shi"),
  ("shou", "shou"),
  ("shu", "shu"),
  ("shua", "shua"),
  ("shuai", "shuai"),
  ("shuan", "shuan"),
  ("shuang", "shuang"),
  ("shui", "shui"),
  ("shun", "shun"),
  ("shuo", "shuo"),
  ("so", "suo"),
  ("sou", "sou"),
  ("ssu", "si"),
  ("su", "su"),
  ("suan", "suan"),
  ("sui", "sui"),
  ("sun", "sun"),
  ("sung", "song"),
  ("szu", "si"),
  ("ta", "da"),
  ("tai", "dai"),
  ("tan", "dan"),
  ("tang", "dang"),
  ("tao", "dao"),
  ("te", "de"),
  ("teng", "deng"),
  ("ti", "di"),
  ("tiao", "diao"),
  ("tieh", "die"),
  ("tien", "dian"),
  ("ting", "ding"),
  ("tiu", "diu"),
  ("to", "duo"),
  ("tou", "dou"),
  ("tu", "du"),
  ("tuan", "duan"),
  ("tui", "dui"),
  ("tun", "dun"),
  ("tung", "dong"),
  ("t'a", "ta"),
  ("t'ai", "tai"),
  ("t'an", "tan"),
  ("t'ang", "tang"),
  ("t'ao", "tao"),
  ("t'e", "te"),
  ("t'eng", "teng"),
  ("t'i", "ti"),
  ("t'iao", "tiao"),
  ("t'ieh", "tie"),
  ("t'ien", "tian"),
  ("t'ing", "ting"),
  ("t'o", "tuo"),
  ("t'ou", "tou"),
  ("t'u", "tu"),
  ("t'uan", "tuan"),
  ("t'ui", "tui"),
  ("t'un", "tun"),
  ("t'ung", "tong"),
  ("tsa", "za"),
  ("tsai", "zai"),
  ("tsan", "zan"),
  ("tsang", "zang"),
  ("tsao", "zao"),
  ("tse", "ze"),
  ("tsei", "zei"),
  ("tsen", "zen"),
  ("tseng", "zeng"),
  ("tso", "zuo"),
  ("tsou", "zou"),
  ("tsu", "zu"),
  ("tsuan", "zuan"),
  ("tsui", "zui"),
  ("tsun", "zun"),
  ("tsung", "zong"),
  ("tzu", "zi"),
  ("ts'a", "ca"),
  ("ts'ai", "cai"),
  ("ts'an", "can"),
  ("ts'ang", "cang"),
  ("ts'ao", "cao"),
  ("ts'e", "ce"),
  ("ts'en", "cen"),
  ("ts'eng", "ceng"),
  ("ts'o", "cuo"),
  ("ts'ou", "cou"),
  ("ts'u", "cu"),
  ("ts'uan", "cuan"),
  ("ts'ui", "cui"),
  ("ts'un", "cun"),
  ("ts'ung", "cong"),
  ("tz'u", "ci"),
  ("wa", "wa"),
  ("wai", "wai"),
  ("wan", "wan"),
  ("wang", "wang"),
  ("wei", "wei"),
  ("wen", "wen"),
  ("weng", "weng"),
  ("wo", "wo"),
  ("wu", "wu"),
  ("ya", "ya"),
  ("yai", "yai"),
  ("yang", "yang"),
  ("yao", "yao"),
  ("yeh", "ye"),
  ("yen", "yan"),
  ("yin", "yin"),
  ("ying", "ying"),
  ("yo", "yo"),
  ("yu", "you"),
  ("yung", "yong"),
  ("yü", "yu"),
  ("yüan", "yuan"),
  ("yüeh", "yue"),
  ("yün", "yun")
]

/-- `UMLAUT_VARIANTS`: umlaut-elided spellings. -/
def UMLAUT_VARIANTS : List (String × String) := [
  ("chu", "ju"),
  ("hsu", "xu"),
  ("hsuan", "xuan"),
  ("hsueh", "xue"),
  ("hsun", "xun"),
  ("yuan", "yuan"),
  ("yueh", "yue"),
  ("yun", "yun"),
  ("lu", "lu"),
  ("lueh", "lue"),
  ("nueh", "nue")
]

/-- `POSTAL_ROMANIZATIONS`: postal and place-name spellings. -/
def POSTAL_ROMANIZATIONS : List (String × String) := [
  ("kwangsi", "guangxi"),
  ("kwangtung", "guangdong"),
  ("fukien", "fujian"),
  ("chekiang", "zhejiang"),
  ("kiangsi", "jiangxi"),
  ("kiangsu", "jiangsu"),
  ("shansi", "shanxi"),
  ("shensi", "shaanxi"),
  ("szechwan", "sichuan"),
  ("szechuan", "sichuan"),
  ("hopei", "hebei"),
  ("hopeh", "hebei"),
  ("honan", "henan"),
  ("hupei", "hubei"),
  ("hupeh", "hubei"),
  ("hunan", "hunan"),
  ("kansu", "gansu"),
  ("kweichow", "guizhou"),
  ("yunnan", "yunnan"),
  ("anhwei", "anhui"),
  ("chihli", "zhili"),
  ("fengtien", "fengtian"),
  ("manchuria", "manchuria"),
  ("peking", "beijing"),
  ("peiping", "beiping"),
  ("nanking", "nanjing"),
  ("canton", "guangzhou"),
  ("tientsin", "tianjin"),
  ("tsingtao", "qingdao"),
  ("chungking", "chongqing"),
  ("sian", "xian"),
  ("sinkiang", "xinjiang"),
  ("tsinghai", "qinghai"),
  ("ningsia", "ningxia"),
  ("suiyuan", "suiyuan"),
  ("yangtze", "yangzi"),
  ("yangtse", "yangzi"),
  ("kwang", "guang"),
  ("kwan", "guan"),
  ("kwai", "guai"),
  ("kwei", "gui")
]

/-- `II_TO_UMLAUT_MAPPINGS`: doubled-vowel OCR artifacts for u-umlaut. -/
def II_TO_UMLAUT_MAPPINGS : List (String × String) := [
  ("ch'ii", "qu"),
  ("ch'iian", "quan"),
  ("ch'iieh", "que"),
  ("ch'iin", "qun"),
  ("chii", "ju"),
  ("chiian", "juan"),
  ("chiieh", "jue"),
  ("chiin", "jun"),
  ("hsii", "xu"),
  ("hsiian", "xuan"),
  ("hsiieh", "xue"),
  ("hsiin", "xun"),
  ("lii", "lü"),
  ("liian", "luan"),
  ("liieh", "lue"),
  ("nii", "nü"),
  ("niieh", "nue"),
  ("yii", "yu"),
  ("yiian", "yuan"),
  ("yiieh", "yue"),
  ("yiin", "yun")
]

/-- `ENGLISH_EXCLUSIONS_LOWERCASE`: excluded only when the span is all-lowercase. -/
def ENGLISH_EXCLUSIONS_LOWERCASE : List String := ["to", "no", "so", "hung", "sung", "lung", "tang", "tan", "pan", "pen", "pin", "ping", "ting"]

/-- `ENGLISH_EXCLUSIONS_ANY_CASE`: excluded in any capitalization. -/
def ENGLISH_EXCLUSIONS_ANY_CASE : List String := ["to", "no", "so"]

/-- `CONTEXT_SENSITIVE`: single-letter syllables converted only in hyphenated context or aggressive mode. -/
def CONTEXT_SENSITIVE : List String := ["i", "a", "o"]

/-- One step of the merge loops: `if key not in dict: dict[key] = value`. -/
def dictInsertIfAbsent (d : List (String × String)) (kv : String × String) :
    List (String × String) :=
  if (alookup kv.1 d).isSome then d else d ++ [kv]

/-- A whole merge loop: fold a source dict into `d`, never overwriting
an existing key. -/
def mergeNoOverwrite (d src : List (String × String)) : List (String × String) :=
  src.foldl dictInsertIfAbsent d

/-- The final `WG_TO_PINYIN` dictionary: the core merged with, in
order, the umlaut variants, the postal romanizations, and the
doubled-vowel mappings, each with do-not-overwrite semantics. -/
def WG_TO_PINYIN : List (String × String) :=
  mergeNoOverwrite
    (mergeNoOverwrite (mergeNoOverwrite WG_CORE UMLAUT_VARIANTS) POSTAL_ROMANIZATIONS)
    II_TO_UMLAUT_MAPPINGS

/-- The value of the merged table, written out (certified equal to
the merge by `wg_to_pinyin_merge_eval`). -/
def WG_TO_PINYIN_LIT : List (String × String) := [
  ("a", "a"),
  ("ai", "ai"),
  ("an", "an"),
  ("ang", "ang"),
  ("ao", "ao"),
  ("cha", "zha"),
  ("chai", "zhai"),
  ("chan", "zhan"),
  ("chang", "zhang"),
  ("chao", "zhao"),
  ("che", "zhe"),
  ("chen", "zhen"),
  ("cheng", "zheng"),
  ("chi", "ji"),
  ("chia", "jia"),
  ("chiang", "jiang"),
  ("chiao", "jiao"),
  ("chieh", "jie"),
  ("chien", "jian"),
  ("chih", "zhi"),
  ("chin", "jin"),
  ("ching", "jing"),
  ("chiu", "jiu"),
  ("chiung", "jiong"),
  ("cho", "zhuo"),
  ("chou", "zhou"),
  ("chu", "zhu"),
  ("chua", "zhua"),
  ("chuai", "zhuai"),
  ("chuan", "zhuan"),
  ("chuang", "zhuang"),
  ("chui", "zhui"),
  ("chun", "zhun"),
  ("chung", "zhong"),
  ("chü", "ju"),
  ("chüan", "juan"),
  ("chüeh", "jue"),
  ("chün", "jun"),
  ("ch'a", "cha"),
  ("ch'ai", "chai"),
  ("ch'an", "chan"),
  ("ch'ang", "chang"),
  ("ch'ao", "chao"),
  ("ch'e", "che"),
  ("ch'en", "chen"),
  ("ch'eng", "cheng"),
  ("ch'i", "qi"),
  ("ch'ia", "qia"),
  ("ch'iang", "qiang"),
  ("ch'iao", "qiao"),
  ("ch'ieh", "qie"),
  ("ch'ien", "qian"),
  ("ch'ih", "chi"),
  ("ch'in", "qin"),
  ("ch'ing", "qing"),
  ("ch'iu", "qiu"),
  ("ch'iung", "qiong"),
  ("ch'o", "chuo"),
  ("ch'ou", "chou"),
  ("ch'u", "chu"),
  ("ch'uai", "chuai"),
  ("ch'uan", "chuan"),
  ("ch'uang", "chuang"),
  ("ch'ui", "chui"),
  ("ch'un", "chun"),
  ("ch'ung", "chong"),
  ("ch'ü", "qu"),
  ("ch'üan", "quan"),
  ("ch'üeh", "que"),
  ("ch'ün", "qun"),
  ("en", "en"),
  ("erh", "er"),
  ("er", "er"),
  ("fa", "fa"),
  ("fan", "fan"),
  ("fang", "fang"),
  ("fei", "fei"),
  ("fen", "fen"),
  ("feng", "feng"),
  ("fo", "fo"),
  ("fou", "fou"),
  ("fu", "fu"),
  ("ha", "ha"),
  ("hai", "hai"),
  ("han", "han"),
  ("hang", "hang"),
  ("hao", "hao"),
  ("hei", "hei"),
  ("hen", "hen"),
  ("heng", "heng"),
  ("ho", "he"),
  ("hou", "hou"),
  ("hu", "hu"),
  ("hua", "hua"),
  ("huai", "huai"),
  ("huan", "huan"),
  ("huang", "huang"),
  ("hui", "hui"),
  ("hun", "hun"),
  ("hung", "hong"),
  ("huo", "huo"),
  ("hsi", "xi"),
  ("hsia", "xia"),
  ("hsiang", "xiang"),
  ("hsiao", "xiao"),
  ("hsieh", "xie"),
  ("hsien", "xian"),
  ("hsin", "xin"),
  ("hsing", "xing"),
  ("hsiu", "xiu"),
  ("hsiung", "xiong"),
  ("hsü", "xu"),
  ("hsüan", "xuan"),
  ("hsüeh", "xue"),
  ("hsün", "xun"),
  ("i", "yi"),
  ("jan", "ran"),
  ("jang", "rang"),
  ("jao", "rao"),
  ("je", "re"),
  ("jen", "ren"),
  ("jeng", "reng"),
  ("jih", "ri"),
  ("jo", "ruo"),
  ("jou", "rou"),
  ("ju", "ru"),
  ("juan", "ruan"),
  ("jui", "rui"),
  ("jun", "run"),
  ("jung", "rong"),
  ("ka", "ga"),
  ("kai", "gai"),
  ("kan", "gan"),
  ("kang", "gang"),
  ("kao", "gao"),
  ("kei", "gei"),
  ("ken", "gen"),
  ("keng", "geng"),
  ("ko", "ge"),
  ("kou", "gou"),
  ("ku", "gu"),
  ("kua", "gua"),
  ("kuai", "guai"),
  ("kuan", "guan"),
  ("kuang", "guang"),
  ("kuei", "gui"),
  ("kun", "gun"),
  ("kung", "gong"),
  ("kuo", "guo"),
  ("k'a", "ka"),
  ("k'ai", "kai"),
  ("k'an", "kan"),
  ("k'ang", "kang"),
  ("k'ao", "kao"),
  ("k'en", "ken"),
  ("k'eng", "keng"),
  ("k'o", "ke"),
  ("k'ou", "kou"),
  ("k'u", "ku"),
  ("k'ua", "kua"),
  ("k'uai", "kuai"),
  ("k'uan", "kuan"),
  ("k'uang", "kuang"),
  ("k'uei", "kui"),
  ("k'un", "kun"),
  ("k'ung", "kong"),
  ("k'uo", "kuo"),
  ("la", "la"),
  ("lai", "lai"),
  ("lan", "lan"),
  ("lang", "lang"),
  ("lao", "lao"),
  ("le", "le"),
  ("lei", "lei"),
  ("leng", "leng"),
  ("li", "li"),
  ("liang", "liang"),
  ("liao", "liao"),
  ("lieh", "lie"),
  ("lien", "lian"),
  ("lin", "lin"),
  ("ling", "ling"),
  ("liu", "liu"),
  ("lo", "luo"),
  ("lou", "lou"),
  ("lu", "lu"),
  ("luan", "luan"),
  ("lun", "lun"),
  ("lung", "long"),
  ("lü", "lü"),
  ("lüan", "luan"),
  ("lüeh", "lue"),
  ("ma", "ma"),
  ("mai", "mai"),
  ("man", "man"),
  ("mang", "mang"),
  ("mao", "mao"),
  ("mei", "mei"),
  ("men", "men"),
  ("meng", "meng"),
  ("mi", "mi"),
  ("miao", "miao"),
  ("mieh", "mie"),
  ("mien", "mian"),
  ("min", "min"),
  ("ming", "ming"),
  ("miu", "miu"),
  ("mo", "mo"),
  ("mou", "mou"),
  ("mu", "mu"),
  ("na", "na"),
  ("nai", "nai"),
  ("nan", "nan"),
  ("nang", "nang"),
  ("nao", "nao"),
  ("nei", "nei"),
  ("nen", "nen"),
  ("neng", "neng"),
  ("ni", "ni"),
  ("niang", "niang"),
  ("niao", "niao"),
  ("nieh", "nie"),
  ("nien", "nian"),
  ("nin", "nin"),
  ("ning", "ning"),
  ("niu", "niu"),
  ("no", "nuo"),
  ("nu", "nu"),
  ("nuan", "nuan"),
  ("nung", "nong"),
  ("nü", "nü"),
  ("nüeh", "nue"),
  ("o", "e"),
  ("ou", "ou"),
  ("pa", "ba"),
  ("pai", "bai"),
  ("pan", "ban"),
  ("pang", "bang"),
  ("pao", "bao"),
  ("pei", "bei"),
  ("pen", "ben"),
  ("peng", "beng"),
  ("pi", "bi"),
  ("piao", "biao"),
  ("pieh", "bie"),
  ("pien", "bian"),
  ("pin", "bin"),
  ("ping", "bing"),
  ("po", "bo"),
  ("pu", "bu"),
  ("p'a", "pa"),
  ("p'ai", "pai"),
  ("p'an", "pan"),
  ("p'ang", "pang"),
  ("p'ao", "pao"),
  ("p'ei", "pei"),
  ("p'en", "pen"),
  ("p'eng", "peng"),
  ("p'i", "pi"),
  ("p'iao", "piao"),
  ("p'ieh", "pie"),
  ("p'ien", "pian"),
  ("p'in", "pin"),
  ("p'ing", "ping"),
  ("p'o", "po"),
  ("p'ou", "pou"),
  ("p'u", "pu"),
  ("sa", "sa"),
  ("sai", "sai"),
  ("san", "san"),
  ("sang", "sang"),
  ("sao", "sao"),
  ("se", "se"),
  ("sen", "sen"),
  ("seng", "seng"),
  ("sha", "sha"),
  ("shai", "shai"),
  ("shan", "shan"),
  ("shang", "shang"),
  ("shao", "shao"),
  ("she", "she"),
  ("shen", "shen"),
  ("sheng", "sheng"),
  ("shih", "shi"),
  ("shou", "shou"),
  ("shu", "shu"),
  ("shua", "shua"),
  ("shuai", "shuai"),
  ("shuan", "shuan"),
  ("shuang", "shuang"),
  ("shui", "shui"),
  ("shun", "shun"),
  ("shuo", "shuo"),
  ("so", "suo"),
  ("sou", "sou"),
  ("ssu", "si"),
  ("su", "su"),
  ("suan", "suan"),
  ("sui", "sui"),
  ("sun", "sun"),
  ("sung", "song"),
  ("szu", "si"),
  ("ta", "da"),
  ("tai", "dai"),
  ("tan", "dan"),
  ("tang", "dang"),
  ("tao", "dao"),
  ("te", "de"),
  ("teng", "deng"),
  ("ti", "di"),
  ("tiao", "diao"),
  ("tieh", "die"),
  ("tien", "dian"),
  ("ting", "ding"),
  ("tiu", "diu"),
  ("to", "duo"),
  ("tou", "dou"),
  ("tu", "du"),
  ("tuan", "duan"),
  ("tui", "dui"),
  ("tun", "dun"),
  ("tung", "dong"),
  ("t'a", "ta"),
  ("t'ai", "tai"),
  ("t'an", "tan"),
  ("t'ang", "tang"),
  ("t'ao", "tao"),
  ("t'e", "te"),
  ("t'eng", "teng"),
  ("t'i", "ti"),
  ("t'iao", "tiao"),
  ("t'ieh", "tie"),
  ("t'ien", "tian"),
  ("t'ing", "ting"),
  ("t'o", "tuo"),
  ("t'ou", "tou"),
  ("t'u", "tu"),
  ("t'uan", "tuan"),
  ("t'ui", "tui"),
  ("t'un", "tun"),
  ("t'ung", "tong"),
  ("tsa", "za"),
  ("tsai", "zai"),
  ("tsan", "zan"),
  ("tsang", "zang"),
  ("tsao", "zao"),
  ("tse", "ze"),
  ("tsei", "zei"),
  ("tsen", "zen"),
  ("tseng", "zeng"),
  ("tso", "zuo"),
  ("tsou", "zou"),
  ("tsu", "zu"),
  ("tsuan", "zuan"),
  ("tsui", "zui"),
  ("tsun", "zun"),
  ("tsung", "zong"),
  ("tzu", "zi"),
  ("ts'a", "ca"),
  ("ts'ai", "cai"),
  ("ts'an", "can"),
  ("ts'ang", "cang"),
  ("ts'ao", "cao"),
  ("ts'e", "ce"),
  ("ts'en", "cen"),
  ("ts'eng", "ceng"),
  ("ts'o", "cuo"),
  ("ts'ou", "cou"),
  ("ts'u", "cu"),
  ("ts'uan", "cuan"),
  ("ts'ui", "cui"),
  ("ts'un", "cun"),
  ("ts'ung", "cong"),
  ("tz'u", "ci"),
  ("wa", "wa"),
  ("wai", "wai"),
  ("wan", "wan"),
  ("wang", "wang"),
  ("wei", "wei"),
  ("wen", "wen"),
  ("weng", "weng"),
  ("wo", "wo"),
  ("wu", "wu"),
  ("ya", "ya"),
  ("yai", "yai"),
  ("yang", "yang"),
  ("yao", "yao"),
  ("yeh", "ye"),
  ("yen", "yan"),
  ("yin", "yin"),
  ("ying", "ying"),
  ("yo", "yo"),
  ("yu", "you"),
  ("yung", "yong"),
  ("yü", "yu"),
  ("yüan", "yuan"),
  ("yüeh", "yue"),
  ("yün", "yun"),
  ("hsu", "xu"),
  ("hsuan", "xuan"),
  ("hsueh", "xue"),
  ("hsun", "xun"),
  ("yuan", "yuan"),
  ("yueh", "yue"),
  ("yun", "yun"),
  ("lueh", "lue"),
  ("nueh", "nue"),
  ("kwangsi", "guangxi"),
  ("kwangtung", "guangdong"),
  ("fukien", "fujian"),
  ("chekiang", "zhejiang"),
  ("kiangsi", "jiangxi"),
  ("kiangsu", "jiangsu"),
  ("shansi", "shanxi"),
  ("shensi", "shaanxi"),
  ("szechwan", "sichuan"),
  ("szechuan", "sichuan"),
  ("hopei", "hebei"),
  ("hopeh", "hebei"),
  ("honan", "henan"),
  ("hupei", "hubei"),
  ("hupeh", "hubei"),
  ("hunan", "hunan"),
  ("kansu", "gansu"),
  ("kweichow", "guizhou"),
  ("yunnan", "yunnan"),
  ("anhwei", "anhui"),
  ("chihli", "zhili"),
  ("fengtien", "fengtian"),
  ("manchuria", "manchuria"),
  ("peking", "beijing"),
  ("peiping", "beiping"),
  ("nanking", "nanjing"),
  ("canton", "guangzhou"),
  ("tientsin", "tianjin"),
  ("tsingtao", "qingdao"),
  ("chungking", "chongqing"),
  ("sian", "xian"),
  ("sinkiang", "xinjiang"),
  ("tsinghai", "qinghai"),
  ("ningsia", "ningxia"),
  ("suiyuan", "suiyuan"),
  ("yangtze", "yangzi"),
  ("yangtse", "yangzi"),
  ("kwang", "guang"),
  ("kwan", "guan"),
  ("kwai", "guai"),
  ("kwei", "gui"),
  ("ch'ii", "qu"),
  ("ch'iian", "quan"),
  ("ch'iieh", "que"),
  ("ch'iin", "qun"),
  ("chii", "ju"),
  ("chiian", "juan"),
  ("chiieh", "jue"),
  ("chiin", "jun"),
  ("hsii", "xu"),
  ("hsiian", "xuan"),
  ("hsiieh", "xue"),
  ("hsiin", "xun"),
  ("lii", "lü"),
  ("liian", "luan"),
  ("liieh", "lue"),
  ("nii", "nü"),
  ("niieh", "nue"),
  ("yii", "yu"),
  ("yiian", "yuan"),
  ("yiieh", "yue"),
  ("yiin", "yun")
]

set_option maxRecDepth 100000 in
set_option maxHeartbeats 8000000 in
/-- Evaluating the merge gives the written-out table; later
definitions use the literal so that concrete runs of the converter
evaluate quickly. -/
theorem wg_to_pinyin_merge_eval : WG_TO_PINYIN = WG_TO_PINYIN_LIT := by decide

theorem alookup_append {α β : Type} [DecidableEq α] (k : α)
    (d e : List (α × β)) :
    alookup k (d ++ e) = ((alookup k d).rec (alookup k e) (fun v => some v)) := by
  induction d with
  | nil => simp [alookup]
  | cons hd tl ih =>
    obtain ⟨a, b⟩ := hd
    by_cases ha : a = k
    · simp [alookup, ha]
    · simpa [alookup, ha] using ih

theorem alookup_append_left {α β : Type} [DecidableEq α] {k : α} {v : β}
    {d : List (α × β)} (e : List (α × β)) (h : alookup k d = some v) :
    alookup k (d ++ e) = some v := by
  rw [alookup_append, h]

theorem alookup_append_right {α β : Type} [DecidableEq α] {k : α}
    {d : List (α × β)} (e : List (α × β)) (h : alookup k d = none) :
    alookup k (d ++ e) = alookup k e := by
  rw [alookup_append, h]

theorem mergeNoOverwrite_preserves {k v} (src : List (String × String)) :
    ∀ d : List (String × String), alookup k d = some v →
      alookup k (mergeNoOverwrite d src) = some v := by
  induction src with
  | nil => intro d h; exact h
  | cons kv rest ih =>
    intro d h
    show alookup k (mergeNoOverwrite (dictInsertIfAbsent d kv) rest) = some v
    apply ih
    unfold dictInsertIfAbsent
    by_cases hk : (alookup kv.1 d).isSome
    · rw [if_pos hk]; exact h
    · rw [if_neg hk]; exact alookup_append_left _ h

theorem mergeNoOverwrite_new {k v} (src : List (String × String)) :
    ∀ d : List (String × String), alookup k d = none →
      alookup k src = some v →
      alookup k (mergeNoOverwrite d src) = some v := by
  induction src with
  | nil => intro d _ h; exact absurd h (by simp [alookup])
  | cons kv rest ih =>
    intro d hd hsrc
    obtain ⟨ka, va⟩ := kv
    show alookup k (mergeNoOverwrite (dictInsertIfAbsent d (ka, va)) rest) = some v
    by_cases hk : ka = k
    · subst hk
      have hva : va = v := by
        rw [alookup, if_pos rfl] at hsrc
        simpa using hsrc
      subst hva
      have hins : dictInsertIfAbsent d (ka, va) = d ++ [(ka, va)] := by
        unfold dictInsertIfAbsent
        rw [if_neg (by simp [hd])]
      apply mergeNoOverwrite_preserves
      rw [hins, alookup_append_right _ hd, alookup, if_pos rfl]
    · have hsrc' : alookup k rest = some v := by
        rw [alookup, if_neg hk] at hsrc
        exact hsrc
      apply ih _ _ hsrc'
      unfold dictInsertIfAbsent
      by_cases hx : (alookup ka d).isSome
      · rw [if_pos hx]; exact hd
      · rw [if_neg hx, alookup_append_right _ hd, alookup, if_neg hk]
        rfl

theorem mergeNoOverwrite_none {k} (src : List (String × String)) :
    ∀ d : List (String × String), alookup k d = none →
      alookup k src = none →
      alookup k (mergeNoOverwrite d src) = none := by
  induction src with
  | nil => intro d h _; exact h
  | cons kv rest ih =>
    intro d hd hsrc
    obtain ⟨ka, va⟩ := kv
    have hk : ¬(ka = k) := by
      intro hk
      rw [alookup, if_pos hk] at hsrc
      exact Option.noConfusion hsrc
    have hsrc' : alookup k rest = none := by
      rw [alookup, if_neg hk] at hsrc
      exact hsrc
    apply ih _ _ hsrc'
    unfold dictInsertIfAbsent
    by_cases hx : (alookup ka d).isSome
    · rw [if_pos hx]; exact hd
    · rw [if_neg hx, alookup_append_right _ hd, alookup, if_neg hk]
      rfl

/-- C7: the syllable table is the fold of the four source sets with
first-writer-wins semantics: a key of an earlier source set keeps its
value through every later merge step, so each key maps to the value of
the first source set containing it; in particular `chu` still maps to
`zhu`, not to the umlaut variant `ju`. -/
theorem wg_table_first_writer_wins :
    (∀ k v, alookup k WG_CORE = some v → alookup k WG_TO_PINYIN = some v)
      ∧ (∀ k v, alookup k WG_CORE = none →
          alookup k UMLAUT_VARIANTS = some v →
          alookup k WG_TO_PINYIN = some v)
      ∧ (∀ k v, alookup k WG_CORE = none →
          alookup k UMLAUT_VARIANTS = none →
          alookup k POSTAL_ROMANIZATIONS = some v →
          alookup k WG_TO_PINYIN = some v)
      ∧ (∀ k v, alookup k WG_CORE = none →
          alookup k UMLAUT_VARIANTS = none →
          alookup k POSTAL_ROMANIZATIONS = none →
          alookup k II_TO_UMLAUT_MAPPINGS = some v →
          alookup k WG_TO_PINYIN = some v)
      ∧ alookup "chu" WG_TO_PINYIN = some "zhu" := by
  refine ⟨?_, ?_, ?_, ?_, ?_⟩
  · intro k v h
    exact mergeNoOverwrite_preserves _ _
      (mergeNoOverwrite_preserves _ _ (mergeNoOverwrite_preserves _ _ h))
  · intro k v hc hu
    exact mergeNoOverwrite_preserves _ _
      (mergeNoOverwrite_preserves _ _ (mergeNoOverwrite_new _ _ hc hu))
  · intro k v hc hu hp
    exact mergeNoOverwrite_preserves _ _
      (mergeNoOverwrite_new _ _ (mergeNoOverwrite_none _ _ hc hu) hp)
  · intro k v hc hu hp hi
    exact mergeNoOverwrite_new _ _
      (mergeNoOverwrite_none _ _ (mergeNoOverwrite_none _ _ hc hu) hp) hi
  · exact mergeNoOverwrite_preserves _ _
      (mergeNoOverwrite_preserves _ _
        (mergeNoOverwrite_preserves _ _ (by decide)))

/-- C7 witness: `chu` is bound to `zhu` in the core set, and the final
table still maps it to `zhu`. -/
theorem wg_table_first_writer_wins_witness :
    alookup "chu" WG_CORE = some "zhu"
      ∧ alookup "chu" WG_TO_PINYIN = some "zhu" :=
  ⟨by decide, by exact wg_table_first_writer_wins.1 "chu" "zhu" (by decide)⟩

/- ### The single-syllable matcher -/

/-- The table with keys and values as character lists. -/
def WG_TABLE : List (List Char × List Char) :=
  WG_TO_PINYIN_LIT.map (fun p => (p.1.data, p.2.data))

/-- The exclusion and context sets as character lists. -/
def EXCL_ANY_LC : List (List Char) := ENGLISH_EXCLUSIONS_ANY_CASE.map String.data

def EXCL_LOWER_LC : List (List Char) := ENGLISH_EXCLUSIONS_LOWERCASE.map String.data

def CONTEXT_LC : List (List Char) := CONTEXT_SENSITIVE.map String.data

/-- The normalization applied to a matched span before lookup:
lowercase, `normalize_apostrophe`, then the (no-op) composed-umlaut
replace `replace(chr 252, chr 252)` of the source. -/
def normalizedWG (original : List Char) : List Char :=
  replaceChar 'ü' 'ü' (normalize_apostrophe (original.map pyLower))

/-- `_convert_single_syllable(original, aggressive, in_hyphenated_sequence)`:
skip the exclusion and context-sensitive filters in aggressive mode or
inside a hyphenated sequence; otherwise convert through the table with
case transfer, or return the span unchanged. -/
def convertSingleSyllable (original : List Char) (aggressive inHyphen : Bool) :
    List Char :=
  if aggressive = false ∧ inHyphen = false ∧ normalizedWG original ∈ EXCL_ANY_LC then
    original
  else if aggressive = false ∧ inHyphen = false
      ∧ normalizedWG original ∈ EXCL_LOWER_LC ∧ pyStrIsLower original = true then
    original
  else if aggressive = false ∧ inHyphen = false
      ∧ normalizedWG original ∈ CONTEXT_LC then
    original
  else
    match alookup (normalizedWG original) WG_TABLE with
    | some pinyin => apply_case original pinyin
    | none => original

/-- One element of a compiled alternative: a literal character or a
character class. -/
inductive RItem where
  | lit : Char → RItem
  | cls : List Char → RItem
deriving DecidableEq

/-- The apostrophe class of `_compile_pattern`, in source order: the
class is written with an ASCII apostrophe three times (the typographic
marks were mangled to ASCII in the source), a backtick, an acute
accent, U+02BC and U+02BB. -/
def APOS_CLASS : List Char := ['\'', '\'', '`', '´', 'ʼ', 'ʻ', '\'']

/-- The umlaut class `[üu]`. -/
def UMLAUT_CLASS : List Char := ['ü', 'u']

/-- The compiled alternative for one table key.  A key containing an
apostrophe is split on apostrophes and rejoined with the apostrophe
class between the parts (equivalently: each apostrophe becomes the
class); otherwise a key containing an umlaut gets the `[üu]` class at
the umlaut; otherwise the key is a literal. -/
def altOfKey (k : List Char) : List RItem :=
  if k.contains '\'' then
    k.map (fun c => if c = '\'' then RItem.cls APOS_CLASS else RItem.lit c)
  else if k.contains 'ü' then
    k.map (fun c => if c = 'ü' then RItem.cls UMLAUT_CLASS else RItem.lit c)
  else
    k.map RItem.lit

/-- Case-insensitive match of one pattern item against one character
(the pattern is compiled with `re.IGNORECASE`). -/
def itemMatch : RItem → Char → Bool
  | RItem.lit p, c => pyLower c = pyLower p
  | RItem.cls cs, c => cs.any (fun p => pyLower c = pyLower p)

/-- Whether an alternative matches a prefix of `s` (each item consumes
exactly one character). -/
def altAccepts : List RItem → List Char → Bool
  | [], _ => true
  | _ :: _, [] => false
  | it :: its, c :: cs => itemMatch it c && altAccepts its cs

/-- The trailing lookahead `(?![a-zA-Z])` applied to the rest of the
input. -/
def aheadOk : List Char → Bool
  | [] => true
  | c :: _ => !isAsciiLetter c

/-- The leading lookbehind `(?<![a-zA-Z])` applied to the previous
character. -/
def boundaryOk : Option Char → Bool
  | none => true
  | some c => !isAsciiLetter c

/-- The largest length of a string in the list (tail-recursive; the
match on the comparison keeps the accumulator evaluated). -/
def maxStrLenAux : Nat → List String → Nat
  | acc, [] => acc
  | acc, x :: xs =>
    match Nat.ble acc x.length with
    | true => maxStrLenAux x.length xs
    | false => maxStrLenAux acc xs

def maxStrLen (l : List String) : Nat := maxStrLenAux 0 l

/-- The strings of each length from `n` down to 1, each bucket in
original order. -/
def bucketsByLenDesc (l : List String) : Nat → List String
  | 0 => []
  | n + 1 => l.filter (fun x => x.length = n + 1) ++ bucketsByLenDesc l n

/-- `sorted(keys, key=len, reverse=True)`: Python's `sorted` is stable,
so with the key `len` and `reverse=True` it returns, for each length
from the largest down, the keys of that length in their original
order; this is that function written out directly. -/
def sortByLenDesc (l : List String) : List String :=
  bucketsByLenDesc l (maxStrLen l) ++ l.filter (fun x => x.length = 0)

def SORTED_KEYS : List String := sortByLenDesc (WG_TO_PINYIN_LIT.map Prod.fst)

/-- The compiled alternation: one alternative per key, longest keys
first. -/
def ALTS : List (List RItem) := SORTED_KEYS.map (fun k => altOfKey k.data)

/-- The first alternative (in order) that matches a prefix of `s` and
passes the trailing lookahead: regex alternation takes the first
matching branch. -/
def firstAlt (alts : List (List RItem)) (s : List Char) : Option (List RItem) :=
  alts.find? (fun alt => altAccepts alt s && aheadOk (s.drop alt.length))

/-- The single-syllable matcher at one position: the lookbehind, then
the alternation; returns the matched length. -/
def reMatcher (alts : List (List RItem)) (prev : Option Char) (s : List Char) :
    Option Nat :=
  if boundaryOk prev then (firstAlt alts s).map List.length else none

/- ### The generic substitution scan (`re.sub`) -/

/-- `pattern.sub(repl, text)`: scan left to right; at each position ask
the matcher for a match length; on a match emit the replacement of the
matched text and resume after it (after a zero-width match, emit the
replacement and copy one character); otherwise copy one character.  The
previous character of the original text is carried for the lookbehind.
`fuel` only bounds the recursion; every call site passes the input
length, which suffices because each step consumes at least one
character. -/
def scanSub (matcher : Option Char → List Char → Option Nat)
    (repl : List Char → List Char) : Nat → Option Char → List Char → List Char
  | 0, _, s => s
  | _ + 1, _, [] => []
  | fuel + 1, prev, c :: rest =>
    match matcher prev (c :: rest) with
    | none => c :: scanSub matcher repl fuel (some c) rest
    | some 0 => repl [] ++ c :: scanSub matcher repl fuel (some c) rest
    | some (n + 1) =>
      repl ((c :: rest).take (n + 1))
        ++ scanSub matcher repl fuel
            (some (((c :: rest).take (n + 1)).getLastD c))
            ((c :: rest).drop (n + 1))

/- ### The hyphenated-sequence pass -/

/-- The character class of the hyphen pattern
`[a-zA-ZüÜ''`´ʼʻ]` (both escaped apostrophes are ASCII in the
source). -/
def HYPHEN_CLASS_EXTRA : List Char := ['ü', 'Ü', '\'', '\'', '`', '´', 'ʼ', 'ʻ']

def isHyphChar (c : Char) : Bool := isAsciiLetter c || HYPHEN_CLASS_EXTRA.contains c

/-- Python's `\w` over the modelled universe: ASCII alphanumerics and
underscore, plus the non-ASCII letters the program handles (u-umlaut,
the accented vowels, and the modifier letters U+02BC and U+02BB, which
Unicode classes as letters).  Backtick and the acute accent are not
word characters. -/
def pyIsWordChar (c : Char) : Bool :=
  isAsciiLetter c || ('0' ≤ c && c ≤ '9') || c = '_' || c = 'ü' || c = 'Ü'
    || c = 'ʼ' || c = 'ʻ' || (DIACRITIC_PAIRS.map Prod.fst).contains c

def isWordOpt : Option Char → Bool
  | none => false
  | some c => pyIsWordChar c

/-- `\b`: a word boundary between two (possibly absent) characters. -/
def wordBoundary (l r : Option Char) : Bool := isWordOpt l != isWordOpt r

/-- Parse `(?:-X+)+` greedily: each group is a hyphen followed by a
maximal nonempty run of class characters.  Returns the groups and the
rest.  `fuel` bounds the recursion (a hyphen is consumed each step). -/
def parseHyphGroups : Nat → List Char → List (List Char) × List Char
  | 0, s => ([], s)
  | fuel + 1, s =>
    match s with
    | '-' :: rest =>
      if (List.span isHyphChar rest).1 = [] then ([], s)
      else
        ((List.span isHyphChar rest).1
            :: (parseHyphGroups fuel (List.span isHyphChar rest).2).1,
          (parseHyphGroups fuel (List.span isHyphChar rest).2).2)
    | _ => ([], s)

/-- Backtracking inside the last run: the largest `k` between 1 and the
run length such that the trailing `\b` holds after the first `k`
characters of the run (the regex engine gives back one character at a
time from a greedy `X+`). -/
def bestTruncAux (run rest : List Char) : Nat → Option Nat
  | 0 => none
  | k + 1 =>
    if wordBoundary (some ((run.take (k + 1)).getLastD ' '))
        ((run.drop (k + 1) ++ rest).head?)
    then some (k + 1)
    else bestTruncAux run rest k

def bestTrunc (run rest : List Char) : Option Nat :=
  bestTruncAux run rest run.length

/-- Backtracking over the groups, last group first (the groups are
passed reversed, so this is structural): truncate the last run if some
truncation satisfies the trailing `\b`; otherwise drop the whole last
group (its hyphen and run return to the unmatched rest) and try again.
At least one group must remain.  Returns the matched length. -/
def chooseEndRev (r0 : List Char) : List (List Char) → List Char → Option Nat
  | [], _ => none
  | last :: initRev, rest =>
    match bestTrunc last rest with
    | some k =>
      some (r0.length + initRev.foldl (fun a g => a + 1 + g.length) 0 + 1 + k)
    | none => chooseEndRev r0 initRev ('-' :: (last ++ rest))

/-- The hyphenated-sequence matcher at one position, for the pattern
`\b([class]+(?:-[class]+)+)\b`: a maximal first run, a leading `\b`
against the previous character, the greedy groups, then the
backtracking for the trailing `\b`. -/
def hyphenMatcher (prev : Option Char) (s : List Char) : Option Nat :=
  if (List.span isHyphChar s).1 = [] then none
  else if wordBoundary prev s.head? = false then none
  else
    chooseEndRev (List.span isHyphChar s).1
      ((parseHyphGroups (List.span isHyphChar s).2.length
          (List.span isHyphChar s).2).1).reverse
      (parseHyphGroups (List.span isHyphChar s).2.length
          (List.span isHyphChar s).2).2

/- ### The hyphenated-sequence joiner -/

/-- Python `sequence.split(chr 45)`. -/
def splitOnHyphen : List Char → List (List Char)
  | [] => [[]]
  | c :: rest =>
    if c = '-' then [] :: splitOnHyphen rest
    else
      match splitOnHyphen rest with
      | [] => [[c]]
      | p :: ps => (c :: p) :: ps

/-- One iteration of the loop of `_convert_hyphenated_sequence` over
one part.  The state is (converted parts, all parts are table
syllables, some part changed spelling, this is the first part); an
empty part is skipped entirely, as the loop's `continue` does. -/
def hyphStep (st : List (List Char) × Bool × Bool × Bool) (part : List Char) :
    List (List Char) × Bool × Bool × Bool :=
  if part = [] then st
  else if (alookup (normalizedWG part) WG_TABLE).isSome then
    (st.1 ++ [if st.2.2.2 then convertSingleSyllable part true true
              else (convertSingleSyllable part true true).map pyLower],
     st.2.1,
     st.2.2.1
       || decide (¬(convertSingleSyllable part true true).map pyLower
            = part.map pyLower),
     false)
  else
    (st.1 ++ [if st.2.2.2 then part else part.map pyLower], false, st.2.2.1, false)

/-- `_convert_hyphenated_sequence`: split on hyphens, convert each part
(the parts are looked up and converted with `aggressive=True` and
`in_hyphenated_sequence=True` regardless of the caller's flag; the
first part keeps its case, the rest are lowercased), then join without
hyphens when some part changed spelling or all parts are table
syllables, else return the sequence unchanged. -/
def convertHyphenatedSequence (sequence : List Char) (aggressive : Bool) :
    List Char :=
  if ((splitOnHyphen sequence).foldl hyphStep ([], true, false, true)).2.2.1
      || ((splitOnHyphen sequence).foldl hyphStep ([], true, false, true)).2.1
  then ((splitOnHyphen sequence).foldl hyphStep ([], true, false, true)).1.flatten
  else sequence

/- ### `convert_text` -/

/-- The first pass of `convert_text`: the hyphen pattern substituted by
the joiner. -/
def hyphenPass (text : List Char) (aggressive : Bool) : List Char :=
  scanSub hyphenMatcher (fun m => convertHyphenatedSequence m aggressive)
    text.length none text

/-- `convert_text(text, aggressive)`: empty text unchanged; otherwise
the hyphen pass, then the single-syllable pass over its output. -/
def convert_text (text : List Char) (aggressive : Bool) : List Char :=
  if text = [] then text
  else
    scanSub (reMatcher ALTS) (fun m => convertSingleSyllable m aggressive false)
      (hyphenPass text aggressive).length none (hyphenPass text aggressive)

/- ### The proper-noun heuristic (`_is_likely_proper_noun`) -/

/-- The postal-romanization dict with keys and values as character
lists (the heuristic consults it directly, not the merged table). -/
def POSTAL_TABLE_LC : List (List Char × List Char) :=
  POSTAL_ROMANIZATIONS.map (fun p => (p.1.data, p.2.data))

/-- The normalization the heuristic applies: diacritics first, then
apostrophes. -/
def properNounNormalized (w : List Char) : List Char :=
  normalize_apostrophe (normalize_diacritics w)

/-- `_is_likely_proper_noun(word_clean, _, is_sentence_start, _)`:
`none` models the `IndexError` Python raises on an empty word
(`word_clean[0]`).  A word is eligible only if capitalized; an
apostrophe or hyphen (after normalization) or a postal romanization
makes it always eligible; at a sentence start it must be longer than
four characters; otherwise any capitalized word is eligible. -/
def isLikelyProperNoun (wordClean : List Char) (isSentenceStart : Bool) :
    Option Bool :=
  match wordClean with
  | [] => none
  | c :: _ =>
    some (
      if pyIsUpper c = false then false
      else if ((properNounNormalized wordClean).contains '\''
          || (properNounNormalized wordClean).contains '-') = true then true
      else if (alookup ((properNounNormalized wordClean).map pyLower)
          POSTAL_TABLE_LC).isSome = true then true
      else if isSentenceStart = true then
        decide (4 < (properNounNormalized wordClean).length)
      else true)

/-- C9: for a word with an uppercase first character, the eligibility
test returns true when the normalized word contains an apostrophe or
hyphen or is a postal romanization; at a sentence start it otherwise
returns true exactly when the normalized word is longer than four
characters, so a capitalized word of four or fewer characters at a
sentence boundary that is neither postal nor apostrophized nor
hyphenated is not eligible; and a word whose first character is not
uppercase is never eligible. -/
theorem wg_c9_proper_noun_policy (c : Char) (cs : List Char) (start : Bool) :
    (pyIsUpper c = false → isLikelyProperNoun (c :: cs) start = some false)
    ∧ (pyIsUpper c = true →
        ((properNounNormalized (c :: cs)).contains '\''
          || (properNounNormalized (c :: cs)).contains '-') = true →
        isLikelyProperNoun (c :: cs) start = some true)
    ∧ (pyIsUpper c = true →
        (alookup ((properNounNormalized (c :: cs)).map pyLower)
            POSTAL_TABLE_LC).isSome = true →
        isLikelyProperNoun (c :: cs) start = some true)
    ∧ (pyIsUpper c = true →
        ((properNounNormalized (c :: cs)).contains '\''
          || (properNounNormalized (c :: cs)).contains '-') = false →
        (alookup ((properNounNormalized (c :: cs)).map pyLower)
            POSTAL_TABLE_LC).isSome = false →
        (isLikelyProperNoun (c :: cs) true = some true
          ↔ 4 < (properNounNormalized (c :: cs)).length))
    ∧ (pyIsUpper c = true →
        ((properNounNormalized (c :: cs)).contains '\''
          || (properNounNormalized (c :: cs)).contains '-') = false →
        (alookup ((properNounNormalized (c :: cs)).map pyLower)
            POSTAL_TABLE_LC).isSome = false →
        (properNounNormalized (c :: cs)).length ≤ 4 →
        isLikelyProperNoun (c :: cs) true = some false) := by
  have hmatch : ∀ b, isLikelyProperNoun (c :: cs) b
      = some (
        if pyIsUpper c = false then false
        else if ((properNounNormalized (c :: cs)).contains '\''
            || (properNounNormalized (c :: cs)).contains '-') = true then true
        else if (alookup ((properNounNormalized (c :: cs)).map pyLower)
            POSTAL_TABLE_LC).isSome = true then true
        else if b = true then
          decide (4 < (properNounNormalized (c :: cs)).length)
        else true) := fun b => rfl
  refine ⟨?_, ?_, ?_, ?_, ?_⟩
  · intro hu
    rw [hmatch, if_pos hu]
  · intro hu hc
    rw [hmatch, if_neg (by simp [hu]), if_pos hc]
  · intro hu hp
    by_cases hc : ((properNounNormalized (c :: cs)).contains '\''
        || (properNounNormalized (c :: cs)).contains '-') = true
    · rw [hmatch, if_neg (by simp [hu]), if_pos hc]
    · rw [hmatch, if_neg (by simp [hu]), if_neg hc, if_pos hp]
  · intro hu hc hp
    rw [hmatch, if_neg (by simp [hu]), if_neg (by rw [hc]; exact Bool.false_ne_true),
      if_neg (by rw [hp]; exact Bool.false_ne_true), if_pos rfl]
    simp
  · intro hu hc hp hlen
    rw [hmatch, if_neg (by simp [hu]), if_neg (by rw [hc]; exact Bool.false_ne_true),
      if_neg (by rw [hp]; exact Bool.false_ne_true), if_pos rfl]
    simp only [Option.some.injEq, decide_eq_false_iff_not]
    omega

/-- C9 witness: `Sung` (four characters, capitalized, not postal, no
apostrophe or hyphen) at a sentence start is not eligible. -/
theorem wg_c9_proper_noun_policy_witness :
    isLikelyProperNoun "Sung".data true = some false :=
  (wg_c9_proper_noun_policy 'S' "ung".data true).2.2.2.2
    (by decide) (by decide) (by decide) (by decide)

/- ### C1: the conservative single-span policy -/

theorem convertSingleSyllable_conservative_eq (o : List Char) :
    convertSingleSyllable o false false
      = (if normalizedWG o ∈ EXCL_ANY_LC then o
         else if normalizedWG o ∈ EXCL_LOWER_LC ∧ pyStrIsLower o = true then o
         else if normalizedWG o ∈ CONTEXT_LC then o
         else match alookup (normalizedWG o) WG_TABLE with
              | some pinyin => apply_case o pinyin
              | none => o) := by
  unfold convertSingleSyllable
  by_cases h1 : normalizedWG o ∈ EXCL_ANY_LC
  · rw [if_pos ⟨rfl, rfl, h1⟩, if_pos h1]
  · rw [if_neg (fun hc => h1 hc.2.2), if_neg h1]
    by_cases h2 : normalizedWG o ∈ EXCL_LOWER_LC ∧ pyStrIsLower o = true
    · rw [if_pos ⟨rfl, rfl, h2.1, h2.2⟩, if_pos h2]
    · rw [if_neg (fun hc => h2 ⟨hc.2.2.1, hc.2.2.2⟩), if_neg h2]
      by_cases h3 : normalizedWG o ∈ CONTEXT_LC
      · rw [if_pos ⟨rfl, rfl, h3⟩, if_pos h3]
      · rw [if_neg (fun hc => h3 hc.2.2), if_neg h3]

set_option maxRecDepth 40000 in
/-- C1: in conservative mode outside a hyphen group, a matched span is
left unchanged when its apostrophe-normalized lowercase form is in the
any-case-excluded set; unchanged when that form is in the
lowercase-only-excluded set and the span is all-lowercase; unchanged
when that form is in the context-sensitive set; and otherwise replaced
by the table's Pinyin value with case transfer when the form is a
table key.  In particular the spec's two conversions hold. -/
theorem wg_c1_conservative_policy :
    (∀ o : List Char, normalizedWG o ∈ EXCL_ANY_LC →
        convertSingleSyllable o false false = o)
    ∧ (∀ o : List Char, normalizedWG o ∈ EXCL_LOWER_LC → pyStrIsLower o = true →
        convertSingleSyllable o false false = o)
    ∧ (∀ o : List Char, normalizedWG o ∈ CONTEXT_LC →
        convertSingleSyllable o false false = o)
    ∧ (∀ o py : List Char, normalizedWG o ∉ EXCL_ANY_LC →
        ¬(normalizedWG o ∈ EXCL_LOWER_LC ∧ pyStrIsLower o = true) →
        normalizedWG o ∉ CONTEXT_LC →
        alookup (normalizedWG o) WG_TABLE = some py →
        convertSingleSyllable o false false = apply_case o py)
    ∧ convert_text "to be or not to be".data false = "to be or not to be".data
    ∧ convert_text "Sung Dynasty".data false = "Song Dynasty".data := by
  refine ⟨?_, ?_, ?_, ?_, by decide, by decide⟩
  · intro o h1
    rw [convertSingleSyllable_conservative_eq, if_pos h1]
  · intro o h2a h2b
    rw [convertSingleSyllable_conservative_eq]
    by_cases h1 : normalizedWG o ∈ EXCL_ANY_LC
    · rw [if_pos h1]
    · rw [if_neg h1, if_pos ⟨h2a, h2b⟩]
  · intro o h3
    rw [convertSingleSyllable_conservative_eq]
    by_cases h1 : normalizedWG o ∈ EXCL_ANY_LC
    · rw [if_pos h1]
    · rw [if_neg h1]
      by_cases h2 : normalizedWG o ∈ EXCL_LOWER_LC ∧ pyStrIsLower o = true
      · rw [if_pos h2]
      · rw [if_neg h2, if_pos h3]
  · intro o py h1 h2 h3 hk
    rw [convertSingleSyllable_conservative_eq, if_neg h1, if_neg h2, if_neg h3, hk]

set_option maxRecDepth 40000 in
/-- C1 witness: `to` (any-case excluded) is left alone; `Sung` is a
table key not excluded in capitalized form and converts with case
transfer. -/
theorem wg_c1_conservative_policy_witness :
    convertSingleSyllable "to".data false false = "to".data
      ∧ convertSingleSyllable "Sung".data false false
        = apply_case "Sung".data "song".data :=
  ⟨wg_c1_conservative_policy.1 "to".data (by decide),
   wg_c1_conservative_policy.2.2.2.1 "Sung".data "song".data
     (by decide) (by decide) (by decide) (by decide)⟩

/- ### C2: the hyphen join decision -/

/-- A sub-part recognized as a table syllable. -/
def hyphPartRecognized (p : List Char) : Bool :=
  (alookup (normalizedWG p) WG_TABLE).isSome

/-- A sub-part whose spelling actually changes under conversion. -/
def hyphPartChanged (p : List Char) : Bool :=
  hyphPartRecognized p
    && decide (¬(convertSingleSyllable p true true).map pyLower = p.map pyLower)

/-- The converted form of one sub-part: recognized parts are converted
(in-hyphen-group, aggressive), others kept; only the first part keeps
its case, the rest are lowercased. -/
def hyphConvertedPart (isFirst : Bool) (p : List Char) : List Char :=
  if hyphPartRecognized p then
    (if isFirst then convertSingleSyllable p true true
     else (convertSingleSyllable p true true).map pyLower)
  else (if isFirst then p else p.map pyLower)

/-- The concatenation of the converted sub-parts with hyphens removed. -/
def hyphJoined : List (List Char) → List Char
  | [] => []
  | p :: ps => hyphConvertedPart true p ++ (ps.map (hyphConvertedPart false)).flatten

theorem hyphStep_not_first (acc : List (List Char)) (allWG anyConv : Bool)
    (p : List Char) (hp : p ≠ []) :
    hyphStep (acc, allWG, anyConv, false) p
      = (acc ++ [hyphConvertedPart false p],
         allWG && hyphPartRecognized p,
         anyConv || hyphPartChanged p,
         false) := by
  unfold hyphStep hyphConvertedPart hyphPartChanged hyphPartRecognized
  rw [if_neg hp]
  by_cases hr : (alookup (normalizedWG p) WG_TABLE).isSome
  · simp [hr]
  · simp [hr]

theorem hyphStep_first (p : List Char) (hp : p ≠ []) :
    hyphStep ([], true, false, true) p
      = ([hyphConvertedPart true p],
         hyphPartRecognized p,
         hyphPartChanged p,
         false) := by
  unfold hyphStep hyphConvertedPart hyphPartChanged hyphPartRecognized
  rw [if_neg hp]
  by_cases hr : (alookup (normalizedWG p) WG_TABLE).isSome
  · simp [hr]
  · simp [hr]

theorem hyphStep_foldl_rest (ps : List (List Char)) :
    ∀ (acc : List (List Char)) (allWG anyConv : Bool), (∀ p ∈ ps, p ≠ []) →
      ps.foldl hyphStep (acc, allWG, anyConv, false)
        = (acc ++ ps.map (hyphConvertedPart false),
           allWG && ps.all hyphPartRecognized,
           anyConv || ps.any hyphPartChanged,
           false) := by
  induction ps with
  | nil => intro acc allWG anyConv _; simp
  | cons p ps ih =>
    intro acc allWG anyConv hne
    rw [List.foldl_cons, hyphStep_not_first acc allWG anyConv p (hne p (by simp)),
      ih _ _ _ (fun q hq => hne q (by simp [hq]))]
    simp [Bool.and_assoc, Bool.or_assoc]

set_option maxRecDepth 40000 in
/-- C2: a hyphen-delimited run with at least two nonempty sub-parts is
rewritten to the concatenation of its converted sub-parts with the
hyphens removed exactly when some sub-part's spelling actually changed
or every sub-part is a recognized table syllable, and is returned
unchanged otherwise; and `convert_text` turns `Tse-tung` into
`Zedong` in conservative mode. -/
theorem wg_c2_hyphen_join (sequence : List Char) (a : Bool)
    (hne : ∀ p ∈ splitOnHyphen sequence, p ≠ [])
    (hlen : 2 ≤ (splitOnHyphen sequence).length) :
    convertHyphenatedSequence sequence a
      = (if (splitOnHyphen sequence).any hyphPartChanged
            || (splitOnHyphen sequence).all hyphPartRecognized
         then hyphJoined (splitOnHyphen sequence)
         else sequence)
    ∧ convert_text "Tse-tung".data false = "Zedong".data := by
  refine ⟨?_, by decide⟩
  rcases hsp : splitOnHyphen sequence with _ | ⟨p0, ps⟩
  · rw [hsp] at hlen; simp at hlen
  · rw [hsp] at hne
    have hfold : (splitOnHyphen sequence).foldl hyphStep ([], true, false, true)
        = ([hyphConvertedPart true p0] ++ ps.map (hyphConvertedPart false),
           hyphPartRecognized p0 && ps.all hyphPartRecognized,
           hyphPartChanged p0 || ps.any hyphPartChanged,
           false) := by
      rw [hsp, List.foldl_cons, hyphStep_first p0 (hne p0 (by simp)),
        hyphStep_foldl_rest ps _ _ _ (fun q hq => hne q (by simp [hq]))]
    unfold convertHyphenatedSequence
    rw [hfold]
    simp only [List.any_cons, List.all_cons, List.singleton_append,
      List.flatten_cons, hyphJoined]

set_option maxRecDepth 40000 in
/-- C2 witness: `Tse-tung` splits into two nonempty recognized parts
and joins to `Zedong`. -/
theorem wg_c2_hyphen_join_witness :
    convertHyphenatedSequence "Tse-tung".data false
      = (if (splitOnHyphen "Tse-tung".data).any hyphPartChanged
            || (splitOnHyphen "Tse-tung".data).all hyphPartRecognized
         then hyphJoined (splitOnHyphen "Tse-tung".data)
         else "Tse-tung".data) :=
  (wg_c2_hyphen_join "Tse-tung".data false (by decide) (by decide)).1

/- ### C4: longest-match precedence -/

theorem altOfKey_length (k : List Char) : (altOfKey k).length = k.length := by
  unfold altOfKey
  by_cases h1 : k.contains '\''
  · rw [if_pos h1, List.length_map]
  · rw [if_neg h1]
    by_cases h2 : k.contains 'ü'
    · rw [if_pos h2, List.length_map]
    · rw [if_neg h2, List.length_map]

/-- A length-descending chain check, written as a boolean so the
kernel can evaluate it on the concrete key list. -/
def lenDescChain : List String → Bool
  | [] => true
  | [_] => true
  | x :: y :: rest => (decide (y.length ≤ x.length)) && lenDescChain (y :: rest)

theorem lenDescChain_pairwise : ∀ l : List String, lenDescChain l = true →
    List.Pairwise (fun a b : String => b.length ≤ a.length) l := by
  intro l
  induction l with
  | nil => intro _; exact List.Pairwise.nil
  | cons x xs ih =>
    intro h
    cases xs with
    | nil => simp
    | cons y rest =>
      simp only [lenDescChain, Bool.and_eq_true, decide_eq_true_eq] at h
      have hpw := ih h.2
      refine List.Pairwise.cons ?_ hpw
      intro z hz
      rcases List.mem_cons.mp hz with rfl | hz2
      · exact h.1
      · exact le_trans ((List.pairwise_cons.mp hpw).1 z hz2) h.1

set_option maxRecDepth 40000 in
/-- The sorted key list is length-descending (checked on the list). -/
theorem sorted_keys_chain : lenDescChain SORTED_KEYS = true := by
  decide

theorem alts_pairwise :
    List.Pairwise (fun a b : List RItem => b.length ≤ a.length) ALTS := by
  unfold ALTS
  rw [List.pairwise_map]
  have hp := lenDescChain_pairwise SORTED_KEYS sorted_keys_chain
  refine hp.imp ?_
  intro a b h
  rw [altOfKey_length, altOfKey_length]
  exact h

theorem find?_split {α : Type} (p : α → Bool) :
    ∀ {l : List α} {a : α}, l.find? p = some a →
      ∃ l1 l2, l = l1 ++ a :: l2 ∧ (∀ x ∈ l1, p x = false) ∧ p a = true := by
  intro l
  induction l with
  | nil => intro a h; simp [List.find?] at h
  | cons x xs ih =>
    intro a h
    by_cases hx : p x
    · rw [List.find?_cons_of_pos _ hx] at h
      obtain rfl : x = a := by simpa using h
      exact ⟨[], xs, rfl, by simp, hx⟩
    · rw [List.find?_cons_of_neg _ (by simpa using hx)] at h
      obtain ⟨l1, l2, heq, hall, hpa⟩ := ih h
      exact ⟨x :: l1, l2, by rw [heq]; rfl,
        by intro y hy
           rcases List.mem_cons.mp hy with rfl | hy
           · simpa using hx
           · exact hall y hy,
        hpa⟩

theorem find?_isSome_of_mem {α : Type} (p : α → Bool) {l : List α} {a : α}
    (hmem : a ∈ l) (hpa : p a = true) : ∃ b, l.find? p = some b := by
  induction l with
  | nil => simp at hmem
  | cons x xs ih =>
    by_cases hx : p x
    · exact ⟨x, List.find?_cons_of_pos _ hx⟩
    · rcases List.mem_cons.mp hmem with rfl | hmem'
      · exact absurd hpa (by simpa using hx)
      · obtain ⟨b, hb⟩ := ih hmem'
        exact ⟨b, by rw [List.find?_cons_of_neg _ (by simpa using hx)]; exact hb⟩

/-- C4: the alternation tries longer keys first, so no shorter key can
shadow a longer one.  If an alternative of the compiled pattern
matches at a position (its characters match, the trailing lookahead
holds, and the position passes the lookbehind), then the matcher
returns a match at that position whose length is at least that
alternative's length; in particular a three-letter key that is a
prefix of a matching four-letter key never produces the match. -/
theorem wg_c4_longest_match (alt : List RItem) (prev : Option Char)
    (s : List Char) (hmem : alt ∈ ALTS) (hacc : altAccepts alt s = true)
    (hahead : aheadOk (s.drop alt.length) = true)
    (hb : boundaryOk prev = true) :
    ∃ n, reMatcher ALTS prev s = some n ∧ alt.length ≤ n := by
  unfold reMatcher
  rw [if_pos hb]
  have hp : (fun alt : List RItem => altAccepts alt s && aheadOk (s.drop alt.length)) alt
      = true := by
    simp [hacc, hahead]
  obtain ⟨b, hfind⟩ :=
    find?_isSome_of_mem (fun alt => altAccepts alt s && aheadOk (s.drop alt.length))
      hmem hp
  refine ⟨b.length, by unfold firstAlt; rw [hfind]; rfl, ?_⟩
  obtain ⟨l1, l2, heq, hall, _⟩ := find?_split _ hfind
  have hmem2 : alt ∈ l1 ++ b :: l2 := heq ▸ hmem
  rcases List.mem_append.mp hmem2 with h1 | h2
  · have hp2 : (altAccepts alt s && aheadOk (s.drop alt.length)) = true := hp
    rw [hall alt h1] at hp2
    exact Bool.noConfusion hp2
  · rcases List.mem_cons.mp h2 with rfl | h3
    · exact le_refl _
    · have hpw := alts_pairwise
      rw [heq] at hpw
      have := (List.pairwise_append.mp hpw).2.1
      exact (List.pairwise_cons.mp this).1 alt h3

set_option maxRecDepth 40000 in
/-- C4 witness: in `chan` the four-letter key `chan` matches at the
start with both boundaries; the matcher resolves the position to a
match of length at least four, although the three-letter key `cha` is
its prefix. -/
theorem wg_c4_longest_match_witness :
    ("cha" ∈ SORTED_KEYS ∧ "chan" ∈ SORTED_KEYS)
      ∧ ∃ n, reMatcher ALTS none "chan".data = some n
          ∧ (altOfKey "chan".data).length ≤ n :=
  ⟨by decide,
   wg_c4_longest_match (altOfKey "chan".data) none "chan".data
     (by decide) (by decide) (by decide) (by decide)⟩

/- ### C5: matched spans sit on word boundaries -/

/-- The scan instrumented to record the position and length of every
(nonempty) match instead of building the output. -/
def scanSpans (matcher : Option Char → List Char → Option Nat) :
    Nat → Nat → Option Char → List Char → List (Nat × Nat)
  | 0, _, _, _ => []
  | _ + 1, _, _, [] => []
  | fuel + 1, pos, prev, c :: rest =>
    match matcher prev (c :: rest) with
    | none => scanSpans matcher fuel (pos + 1) (some c) rest
    | some 0 => scanSpans matcher fuel (pos + 1) (some c) rest
    | some (n + 1) =>
      (pos, n + 1) :: scanSpans matcher fuel (pos + n + 1)
        (some (((c :: rest).take (n + 1)).getLastD c)) ((c :: rest).drop (n + 1))

/-- The spans the single-syllable matcher matches in a text. -/
def singleSyllableSpans (t : List Char) : List (Nat × Nat) :=
  scanSpans (reMatcher ALTS) t.length 0 none t

theorem getD_eq_headD_drop (t : List Char) :
    ∀ pos, t.getD pos ' ' = (t.drop pos).headD ' ' := by
  induction t with
  | nil => intro pos; cases pos <;> rfl
  | cons x xs ih =>
    intro pos
    cases pos with
    | zero => rfl
    | succ n => exact ih n

theorem getD_default_irrel (l : List Char) :
    ∀ n d1 d2, n < l.length → l.getD n d1 = l.getD n d2 := by
  induction l with
  | nil => intro n d1 d2 h; simp at h
  | cons x xs ih =>
    intro n d1 d2 h
    cases n with
    | zero => rfl
    | succ m => exact ih m d1 d2 (by simpa using h)

theorem drop_succ_of_drop_eq {t : List Char} {pos : Nat} {c : Char}
    {rest : List Char} (h : t.drop pos = c :: rest) :
    t.drop (pos + 1) = rest ∧ t.getD pos ' ' = c := by
  constructor
  · have h1 : t.drop (pos + 1) = (t.drop pos).drop 1 := by
      rw [List.drop_drop, Nat.add_comm]
    rw [h1, h]
    rfl
  · rw [getD_eq_headD_drop, h]
    rfl

theorem getD_drop_add (t : List Char) (pos n : Nat) :
    (t.drop pos).getD n ' ' = t.getD (pos + n) ' ' := by
  rw [getD_eq_headD_drop, getD_eq_headD_drop, List.drop_drop, Nat.add_comm]

theorem take_getLastD (s : List Char) :
    ∀ n d, n < s.length → (s.take (n + 1)).getLastD d = s.getD n d := by
  induction s with
  | nil => intro n d h; simp at h
  | cons x xs ih =>
    intro n d h
    cases n with
    | zero => rfl
    | succ m =>
      rw [List.take_succ_cons, List.getLastD_cons,
        ih m x (by simpa using h)]
      exact getD_default_irrel xs m x d (by simpa using h)

theorem altAccepts_length_le {alt : List RItem} :
    ∀ {s : List Char}, altAccepts alt s = true → alt.length ≤ s.length := by
  induction alt with
  | nil => intro s _; simp
  | cons it its ih =>
    intro s h
    cases s with
    | nil => exact absurd h (by simp [altAccepts])
    | cons c cs =>
      simp only [altAccepts, Bool.and_eq_true] at h
      simpa using Nat.succ_le_succ (ih h.2)

theorem reMatcher_some {alts : List (List RItem)} {prev : Option Char}
    {s : List Char} {n : Nat} (h : reMatcher alts prev s = some n) :
    boundaryOk prev = true ∧ n ≤ s.length ∧ aheadOk (s.drop n) = true := by
  unfold reMatcher at h
  by_cases hb : boundaryOk prev = true
  · rw [if_pos hb] at h
    rcases hfa : firstAlt alts s with _ | alt
    · rw [hfa] at h; exact absurd h (by simp)
    · rw [hfa] at h
      have hn : alt.length = n := by simpa using h
      have hfp := List.find?_some hfa
      simp only [Bool.and_eq_true] at hfp
      exact ⟨hb, hn ▸ altAccepts_length_le hfp.1, hn ▸ hfp.2⟩
  · rw [if_neg hb] at h
    exact absurd h (by simp)

theorem scanSpans_sound (matcher : Option Char → List Char → Option Nat)
    (hmatch : ∀ prev u n, matcher prev u = some n →
      boundaryOk prev = true ∧ n ≤ u.length ∧ aheadOk (u.drop n) = true)
    (t : List Char) :
    ∀ (fuel pos : Nat) (s : List Char) (prev : Option Char),
      s = t.drop pos →
      prev = (if pos = 0 then none else some (t.getD (pos - 1) ' ')) →
      ∀ p L, (p, L) ∈ scanSpans matcher fuel pos prev s →
        (p = 0 ∨ isAsciiLetter (t.getD (p - 1) ' ') = false)
        ∧ (t.length ≤ p + L ∨ isAsciiLetter (t.getD (p + L) ' ') = false) := by
  intro fuel
  induction fuel with
  | zero =>
    intro pos s prev _ _ p L h
    simp [scanSpans] at h
  | succ fuel ih =>
    intro pos s prev hs hprev p L h
    cases s with
    | nil => simp [scanSpans] at h
    | cons c rest =>
      have hnext : t.drop (pos + 1) = rest ∧ t.getD pos ' ' = c :=
        drop_succ_of_drop_eq hs.symm
      have hprev1 : some c
          = (if pos + 1 = 0 then none else some (t.getD (pos + 1 - 1) ' ')) := by
        rw [if_neg (Nat.succ_ne_zero pos), Nat.add_sub_cancel, hnext.2]
      rcases hm : matcher prev (c :: rest) with _ | n
      · rw [show scanSpans matcher (fuel + 1) pos prev (c :: rest)
            = scanSpans matcher fuel (pos + 1) (some c) rest by
              simp [scanSpans, hm]] at h
        exact ih (pos + 1) rest (some c) hnext.1.symm hprev1 p L h
      · have hfacts := hmatch prev (c :: rest) n hm
        cases n with
        | zero =>
          rw [show scanSpans matcher (fuel + 1) pos prev (c :: rest)
              = scanSpans matcher fuel (pos + 1) (some c) rest by
                simp [scanSpans, hm]] at h
          exact ih (pos + 1) rest (some c) hnext.1.symm hprev1 p L h
        | succ n =>
          rw [show scanSpans matcher (fuel + 1) pos prev (c :: rest)
              = (pos, n + 1) :: scanSpans matcher fuel (pos + n + 1)
                  (some (((c :: rest).take (n + 1)).getLastD c))
                  ((c :: rest).drop (n + 1)) by
                simp [scanSpans, hm]] at h
          have hdrops : (c :: rest).drop (n + 1) = t.drop (pos + (n + 1)) := by
            rw [hs, List.drop_drop]
          rcases List.mem_cons.mp h with heq | htail
          · obtain ⟨rfl, rfl⟩ : p = pos ∧ L = n + 1 := by
              constructor <;> [exact congrArg Prod.fst heq; exact congrArg Prod.snd heq]
            refine ⟨?_, ?_⟩
            · by_cases hp0 : p = 0
              · exact Or.inl hp0
              · right
                have hb := hfacts.1
                rw [hprev, if_neg hp0] at hb
                simpa [boundaryOk] using hb
            · have hahead := hfacts.2.2
              rw [hdrops] at hahead
              rcases hd : t.drop (p + (n + 1)) with _ | ⟨d, ds⟩
              · left
                have := List.drop_eq_nil_iff.mp hd
                omega
              · right
                rw [hd] at hahead
                have hgd : t.getD (p + (n + 1)) ' ' = d := by
                  rw [getD_eq_headD_drop, hd]
                  rfl
                have hlet : isAsciiLetter d = false := by simpa [aheadOk] using hahead
                rw [← hgd] at hlet
                exact hlet
          · have hlen : n < (c :: rest).length := by
              have := hfacts.2.1
              omega
            have hprev2 : some (((c :: rest).take (n + 1)).getLastD c)
                = (if pos + n + 1 = 0 then none
                   else some (t.getD (pos + n + 1 - 1) ' ')) := by
              rw [if_neg (Nat.succ_ne_zero _)]
              rw [take_getLastD (c :: rest) n c hlen]
              rw [show (c :: rest).getD n c = (c :: rest).getD n ' ' from
                getD_default_irrel _ n c ' ' hlen]
              rw [hs, getD_drop_add, Nat.add_sub_cancel]
            have hdrops2 : (c :: rest).drop (n + 1) = t.drop (pos + n + 1) := by
              rw [hdrops]
              congr 1
            rw [hdrops2] at htail
            exact ih (pos + n + 1) (t.drop (pos + n + 1)) _ rfl hprev2 p L htail

theorem isAsciiLetter_pyLower (c : Char) :
    isAsciiLetter (pyLower c) = isAsciiLetter c := by
  rcases h : alookup c CASE_PAIRS_INV with _ | l
  · have hc : pyLower c = c := by
      unfold pyLower
      rw [h]
      rfl
    rw [hc]
  · have hm := alookup_mem h
    have hc : pyLower c = l := by
      unfold pyLower
      rw [h]
      rfl
    rw [hc]
    exact (by decide :
      ∀ p ∈ CASE_PAIRS_INV, isAsciiLetter p.2 = isAsciiLetter p.1) _ hm

theorem isAscii_of_lower_eq {c c' : Char} (h : pyLower c = pyLower c') :
    isAsciiLetter c = isAsciiLetter c' := by
  rw [← isAsciiLetter_pyLower c, ← isAsciiLetter_pyLower c', h]

theorem itemMatch_lower_eq (it : RItem) {c c' : Char}
    (h : pyLower c = pyLower c') : itemMatch it c = itemMatch it c' := by
  cases it with
  | lit p => simp only [itemMatch, h]
  | cls cs => simp only [itemMatch, h]

theorem altAccepts_lower_eq (alt : List RItem) :
    ∀ (s s' : List Char), s.map pyLower = s'.map pyLower →
      altAccepts alt s = altAccepts alt s' := by
  induction alt with
  | nil => intro s s' _; rfl
  | cons it its ih =>
    intro s s' hmap
    cases s with
    | nil =>
      cases s' with
      | nil => rfl
      | cons c' cs' => exact absurd hmap (by simp)
    | cons c cs =>
      cases s' with
      | nil => exact absurd hmap (by simp)
      | cons c' cs' =>
        simp only [List.map_cons, List.cons.injEq] at hmap
        simp only [altAccepts, itemMatch_lower_eq it hmap.1, ih cs cs' hmap.2]

theorem aheadOk_lower_eq {s s' : List Char}
    (hmap : s.map pyLower = s'.map pyLower) : aheadOk s = aheadOk s' := by
  cases s with
  | nil =>
    cases s' with
    | nil => rfl
    | cons c' cs' => exact absurd hmap (by simp)
  | cons c cs =>
    cases s' with
    | nil => exact absurd hmap (by simp)
    | cons c' cs' =>
      simp only [List.map_cons, List.cons.injEq] at hmap
      simp only [aheadOk, isAscii_of_lower_eq hmap.1]

theorem find?_congr {α : Type} (p q : α → Bool) :
    ∀ (l : List α), (∀ x ∈ l, p x = q x) → l.find? p = l.find? q := by
  intro l
  induction l with
  | nil => intro _; rfl
  | cons x xs ih =>
    intro h
    by_cases hx : p x
    · rw [List.find?_cons_of_pos _ hx,
        List.find?_cons_of_pos _ (by rw [← h x (by simp)]; exact hx)]
    · rw [List.find?_cons_of_neg _ (by simpa using hx),
        List.find?_cons_of_neg _ (by rw [← h x (by simp)]; simpa using hx)]
      exact ih (fun y hy => h y (by simp [hy]))

theorem boundaryOk_lower_eq {prev prev' : Option Char}
    (h : prev.map pyLower = prev'.map pyLower) :
    boundaryOk prev = boundaryOk prev' := by
  cases prev with
  | none =>
    cases prev' with
    | none => rfl
    | some c' => exact absurd h (by simp)
  | some c =>
    cases prev' with
    | none => exact absurd h (by simp)
    | some c' =>
      simp only [Option.map_some'] at h
      simp only [boundaryOk, isAscii_of_lower_eq (by simpa using h)]

theorem reMatcher_lower_eq {prev prev' : Option Char} {s s' : List Char}
    (hprev : prev.map pyLower = prev'.map pyLower)
    (hmap : s.map pyLower = s'.map pyLower) :
    reMatcher ALTS prev s = reMatcher ALTS prev' s' := by
  unfold reMatcher
  rw [boundaryOk_lower_eq hprev]
  by_cases hb : boundaryOk prev' = true
  · rw [if_pos hb, if_pos hb]
    unfold firstAlt
    rw [find?_congr
      (fun alt => altAccepts alt s && aheadOk (s.drop alt.length))
      (fun alt => altAccepts alt s' && aheadOk (s'.drop alt.length))
      ALTS ?_]
    intro alt _
    have hdrop : (s.drop alt.length).map pyLower = (s'.drop alt.length).map pyLower := by
      rw [List.map_drop, List.map_drop, hmap]
    show (altAccepts alt s && aheadOk (s.drop alt.length))
        = (altAccepts alt s' && aheadOk (s'.drop alt.length))
    rw [altAccepts_lower_eq alt s s' hmap, aheadOk_lower_eq hdrop]
  · rw [if_neg hb, if_neg hb]

theorem getLastD_lower_eq :
    ∀ (l l' : List Char) (d d' : Char), l.map pyLower = l'.map pyLower →
      pyLower d = pyLower d' → pyLower (l.getLastD d) = pyLower (l'.getLastD d') := by
  intro l
  induction l with
  | nil =>
    intro l' d d' hmap hd
    cases l' with
    | nil => exact hd
    | cons c' cs' => exact absurd hmap (by simp)
  | cons c cs ih =>
    intro l' d d' hmap hd
    cases l' with
    | nil => exact absurd hmap (by simp)
    | cons c' cs' =>
      simp only [List.map_cons, List.cons.injEq] at hmap
      rw [List.getLastD_cons, List.getLastD_cons]
      exact ih cs' c c' hmap.2 hmap.1

theorem scanSpans_lower_eq :
    ∀ (fuel pos : Nat) (prev prev' : Option Char) (s s' : List Char),
      prev.map pyLower = prev'.map pyLower →
      s.map pyLower = s'.map pyLower →
      scanSpans (reMatcher ALTS) fuel pos prev s
        = scanSpans (reMatcher ALTS) fuel pos prev' s' := by
  intro fuel
  induction fuel with
  | zero => intro pos prev prev' s s' _ _; rfl
  | succ fuel ih =>
    intro pos prev prev' s s' hprev hmap
    cases s with
    | nil =>
      cases s' with
      | nil => rfl
      | cons c' cs' => exact absurd hmap (by simp)
    | cons c rest =>
      cases s' with
      | nil => exact absurd hmap (by simp)
      | cons c' rest' =>
        have hmap' := hmap
        simp only [List.map_cons, List.cons.injEq] at hmap'
        have hmatch := reMatcher_lower_eq hprev hmap
        rcases hm : reMatcher ALTS prev' (c' :: rest') with _ | n
        · rw [show scanSpans (reMatcher ALTS) (fuel + 1) pos prev (c :: rest)
              = scanSpans (reMatcher ALTS) fuel (pos + 1) (some c) rest by
                simp [scanSpans, hmatch.trans hm]]
          rw [show scanSpans (reMatcher ALTS) (fuel + 1) pos prev' (c' :: rest')
              = scanSpans (reMatcher ALTS) fuel (pos + 1) (some c') rest' by
                simp [scanSpans, hm]]
          exact ih (pos + 1) (some c) (some c') rest rest'
            (by simpa using hmap'.1) hmap'.2
        · cases n with
          | zero =>
            rw [show scanSpans (reMatcher ALTS) (fuel + 1) pos prev (c :: rest)
                = scanSpans (reMatcher ALTS) fuel (pos + 1) (some c) rest by
                  simp [scanSpans, hmatch.trans hm]]
            rw [show scanSpans (reMatcher ALTS) (fuel + 1) pos prev' (c' :: rest')
                = scanSpans (reMatcher ALTS) fuel (pos + 1) (some c') rest' by
                  simp [scanSpans, hm]]
            exact ih (pos + 1) (some c) (some c') rest rest'
              (by simpa using hmap'.1) hmap'.2
          | succ n =>
            rw [show scanSpans (reMatcher ALTS) (fuel + 1) pos prev (c :: rest)
                = (pos, n + 1) :: scanSpans (reMatcher ALTS) fuel (pos + n + 1)
                    (some (((c :: rest).take (n + 1)).getLastD c))
                    ((c :: rest).drop (n + 1)) by
                  simp [scanSpans, hmatch.trans hm]]
            rw [show scanSpans (reMatcher ALTS) (fuel + 1) pos prev' (c' :: rest')
                = (pos, n + 1) :: scanSpans (reMatcher ALTS) fuel (pos + n + 1)
                    (some (((c' :: rest').take (n + 1)).getLastD c'))
                    ((c' :: rest').drop (n + 1)) by
                  simp [scanSpans, hm]]
            have htake : ((c :: rest).take (n + 1)).map pyLower
                = ((c' :: rest').take (n + 1)).map pyLower := by
              rw [List.map_take, List.map_take, hmap]
            have hdrop : ((c :: rest).drop (n + 1)).map pyLower
                = ((c' :: rest').drop (n + 1)).map pyLower := by
              rw [List.map_drop, List.map_drop, hmap]
            have hprev2 : (some (((c :: rest).take (n + 1)).getLastD c)).map pyLower
                = (some (((c' :: rest').take (n + 1)).getLastD c')).map pyLower := by
              simp only [Option.map_some']
              exact congrArg some (getLastD_lower_eq _ _ c c' htake hmap'.1)
            rw [ih (pos + n + 1) _ _ _ _ hprev2 hdrop]

/-- C5: every span the single-syllable matcher matches in a text is
bounded by non-letter characters on both sides (a match is never a
proper substring of a longer run of letters), and matching is
case-insensitive: a text with the same lowercase image has exactly the
same matched spans. -/
theorem wg_c5_word_boundary (t t' : List Char) (p L : Nat)
    (hl : t.map pyLower = t'.map pyLower)
    (h : (p, L) ∈ singleSyllableSpans t) :
    (p = 0 ∨ isAsciiLetter (t.getD (p - 1) ' ') = false)
      ∧ (t.length ≤ p + L ∨ isAsciiLetter (t.getD (p + L) ' ') = false)
      ∧ (p, L) ∈ singleSyllableSpans t' := by
  have hsound := scanSpans_sound (reMatcher ALTS)
    (fun prev u n hm => reMatcher_some hm) t t.length 0 t none rfl (by simp) p L h
  refine ⟨hsound.1, hsound.2, ?_⟩
  have hlen : t.length = t'.length := by
    rw [← List.length_map t pyLower, ← List.length_map t' pyLower, hl]
  unfold singleSyllableSpans at h ⊢
  rw [← hlen, ← scanSpans_lower_eq t.length 0 none none t t' rfl hl]
  exact h

set_option maxRecDepth 40000 in
/-- C5 witness: in `a Chan!` the span `Chan` is matched at position 2
with length 4, its neighbours are a space and an exclamation mark, and
the all-lowercase variant `a chan!` produces the same span. -/
theorem wg_c5_word_boundary_witness :
    (2, 4) ∈ singleSyllableSpans "a Chan!".data
      ∧ ((2 = 0 ∨ isAsciiLetter ("a Chan!".data.getD 1 ' ') = false)
        ∧ ("a Chan!".data.length ≤ 6
            ∨ isAsciiLetter ("a Chan!".data.getD 6 ' ') = false)
        ∧ (2, 4) ∈ singleSyllableSpans "a chan!".data) :=
  ⟨by decide,
   wg_c5_word_boundary "a Chan!".data "a chan!".data 2 4 (by decide) (by decide)⟩

/- ### C8: the aggressive mode converts a superset of spans -/

/-- Instrumented version of `scanSub` that records, instead of building
the output, the position and matched text of every span whose
replacement differs from it. -/
def scanChanged (matcher : Option Char → List Char → Option Nat)
    (repl : List Char → List Char) :
    Nat → Nat → Option Char → List Char → List (Nat × List Char)
  | 0, _, _, _ => []
  | _ + 1, _, _, [] => []
  | fuel + 1, pos, prev, c :: rest =>
    match matcher prev (c :: rest) with
    | none => scanChanged matcher repl fuel (pos + 1) (some c) rest
    | some 0 =>
      (if repl [] ≠ [] then [(pos, ([] : List Char))] else [])
        ++ scanChanged matcher repl fuel (pos + 1) (some c) rest
    | some (n + 1) =>
      (if repl ((c :: rest).take (n + 1)) ≠ (c :: rest).take (n + 1)
          then [(pos, (c :: rest).take (n + 1))] else [])
        ++ scanChanged matcher repl fuel (pos + n + 1)
            (some (((c :: rest).take (n + 1)).getLastD c))
            ((c :: rest).drop (n + 1))

/-- The spans `convert_text` changes: pairs of the hyphen-pass changes
on the input text (tagged `false`) and the single-syllable-pass changes
on the hyphen pass's output (tagged `true`), each with the position and
the matched text. -/
def convertedSpans (text : List Char) (aggressive : Bool) :
    List (Bool × Nat × List Char) :=
  (scanChanged hyphenMatcher (fun m => convertHyphenatedSequence m aggressive)
      text.length 0 none text).map (fun p => (false, p))
    ++ (scanChanged (reMatcher ALTS)
          (fun m => convertSingleSyllable m aggressive false)
          (hyphenPass text aggressive).length 0 none
          (hyphenPass text aggressive)).map (fun p => (true, p))

theorem convertHyphenatedSequence_mode (m : List Char) :
    convertHyphenatedSequence m true = convertHyphenatedSequence m false := rfl

theorem hyphenPass_mode (text : List Char) :
    hyphenPass text true = hyphenPass text false := by
  unfold hyphenPass
  rw [show (fun m => convertHyphenatedSequence m true)
      = (fun m => convertHyphenatedSequence m false) from
    funext fun m => convertHyphenatedSequence_mode m]

theorem convertSingleSyllable_aggressive (m : List Char)
    (h : convertSingleSyllable m false false ≠ m) :
    convertSingleSyllable m true false = convertSingleSyllable m false false := by
  unfold convertSingleSyllable at h ⊢
  rw [if_neg (by simp), if_neg (by simp), if_neg (by simp)]
  by_cases h1 : normalizedWG m ∈ EXCL_ANY_LC
  · rw [if_pos ⟨rfl, rfl, h1⟩] at h
    exact absurd rfl h
  · rw [if_neg (fun hc => h1 hc.2.2)] at h
    by_cases h2 : normalizedWG m ∈ EXCL_LOWER_LC ∧ pyStrIsLower m = true
    · rw [if_pos ⟨rfl, rfl, h2.1, h2.2⟩] at h
      exact absurd rfl h
    · rw [if_neg (fun hc => h2 ⟨hc.2.2.1, hc.2.2.2⟩)] at h
      by_cases h3 : normalizedWG m ∈ CONTEXT_LC
      · rw [if_pos ⟨rfl, rfl, h3⟩] at h
        exact absurd rfl h
      · rw [if_neg (fun hc => h3 hc.2.2)] at h
        rw [if_neg (fun hc => h1 hc.2.2),
          if_neg (fun hc => h2 ⟨hc.2.2.1, hc.2.2.2⟩),
          if_neg (fun hc => h3 hc.2.2)]

theorem scanChanged_mono (matcher : Option Char → List Char → Option Nat)
    (r1 r2 : List Char → List Char) (hr : ∀ m, r1 m ≠ m → r2 m = r1 m) :
    ∀ (fuel pos : Nat) (prev : Option Char) (s : List Char)
      (sp : Nat × List Char),
      sp ∈ scanChanged matcher r1 fuel pos prev s →
        sp ∈ scanChanged matcher r2 fuel pos prev s := by
  intro fuel
  induction fuel with
  | zero => intro pos prev s sp hm; exact absurd hm (by simp [scanChanged])
  | succ fuel ih =>
    intro pos prev s sp hm
    cases s with
    | nil => exact absurd hm (by simp [scanChanged])
    | cons c rest =>
      rcases hmt : matcher prev (c :: rest) with _ | n
      · rw [show scanChanged matcher r1 (fuel + 1) pos prev (c :: rest)
            = scanChanged matcher r1 fuel (pos + 1) (some c) rest by
              simp [scanChanged, hmt]] at hm
        rw [show scanChanged matcher r2 (fuel + 1) pos prev (c :: rest)
            = scanChanged matcher r2 fuel (pos + 1) (some c) rest by
              simp [scanChanged, hmt]]
        exact ih (pos + 1) (some c) rest sp hm
      · cases n with
        | zero =>
          rw [show scanChanged matcher r1 (fuel + 1) pos prev (c :: rest)
              = (if r1 [] ≠ [] then [(pos, ([] : List Char))] else [])
                  ++ scanChanged matcher r1 fuel (pos + 1) (some c) rest by
                simp [scanChanged, hmt]] at hm
          rw [show scanChanged matcher r2 (fuel + 1) pos prev (c :: rest)
              = (if r2 [] ≠ [] then [(pos, ([] : List Char))] else [])
                  ++ scanChanged matcher r2 fuel (pos + 1) (some c) rest by
                simp [scanChanged, hmt]]
          rcases List.mem_append.1 hm with hm1 | hm2
          · by_cases hne : r1 [] = []
            · rw [if_neg (by simpa using hne)] at hm1
              exact absurd hm1 (by simp)
            · rw [if_pos hne] at hm1
              have hne2 : r2 [] ≠ [] := by rw [hr [] hne]; exact hne
              exact List.mem_append.2 (Or.inl (by rw [if_pos hne2]; exact hm1))
          · exact List.mem_append.2 (Or.inr (ih (pos + 1) (some c) rest sp hm2))
        | succ n =>
          rw [show scanChanged matcher r1 (fuel + 1) pos prev (c :: rest)
              = (if r1 ((c :: rest).take (n + 1)) ≠ (c :: rest).take (n + 1)
                    then [(pos, (c :: rest).take (n + 1))] else [])
                  ++ scanChanged matcher r1 fuel (pos + n + 1)
                      (some (((c :: rest).take (n + 1)).getLastD c))
                      ((c :: rest).drop (n + 1)) by
                simp [scanChanged, hmt]] at hm
          rw [show scanChanged matcher r2 (fuel + 1) pos prev (c :: rest)
              = (if r2 ((c :: rest).take (n + 1)) ≠ (c :: rest).take (n + 1)
                    then [(pos, (c :: rest).take (n + 1))] else [])
                  ++ scanChanged matcher r2 fuel (pos + n + 1)
                      (some (((c :: rest).take (n + 1)).getLastD c))
                      ((c :: rest).drop (n + 1)) by
                simp [scanChanged, hmt]]
          rcases List.mem_append.1 hm with hm1 | hm2
          · by_cases hne : r1 ((c :: rest).take (n + 1)) = (c :: rest).take (n + 1)
            · rw [if_neg (by simpa using hne)] at hm1
              exact absurd hm1 (by simp)
            · rw [if_pos hne] at hm1
              have hne2 : r2 ((c :: rest).take (n + 1)) ≠ (c :: rest).take (n + 1) := by
                rw [hr _ hne]
                exact hne
              exact List.mem_append.2 (Or.inl (by rw [if_pos hne2]; exact hm1))
          · exact List.mem_append.2 (Or.inr (ih (pos + n + 1) _ _ sp hm2))

/-- C8: for every input text, every span (with its position and matched
text) that `convert_text` changes in conservative mode is also changed
in aggressive mode: the hyphen pass ignores the mode, and a
single-syllable span changed conservatively is changed to the same
replacement aggressively. -/
theorem wg_c8_aggressive_superset (text : List Char) (sp : Bool × Nat × List Char)
    (h : sp ∈ convertedSpans text false) : sp ∈ convertedSpans text true := by
  unfold convertedSpans at h ⊢
  have hlam : (fun m => convertHyphenatedSequence m true)
      = (fun m => convertHyphenatedSequence m false) :=
    funext fun m => convertHyphenatedSequence_mode m
  rw [hyphenPass_mode, hlam]
  rcases List.mem_append.1 h with h1 | h2
  · exact List.mem_append.2 (Or.inl h1)
  · rcases List.mem_map.1 h2 with ⟨p, hp, hpe⟩
    refine List.mem_append.2 (Or.inr (List.mem_map.2 ⟨p, ?_, hpe⟩))
    exact scanChanged_mono (reMatcher ALTS)
      (fun m => convertSingleSyllable m false false)
      (fun m => convertSingleSyllable m true false)
      (fun m hm => convertSingleSyllable_aggressive m hm)
      (hyphenPass text false).length 0 none (hyphenPass text false) p hp

set_option maxRecDepth 40000 in
/-- C8 witness: `Sung` is changed (to `Song`) by the single-syllable
pass at position 0 in conservative mode, and the theorem transfers that
span to aggressive mode. -/
theorem wg_c8_aggressive_superset_witness :
    (true, 0, "Sung".data) ∈ convertedSpans "Sung".data false
      ∧ (true, 0, "Sung".data) ∈ convertedSpans "Sung".data true :=
  ⟨by decide, wg_c8_aggressive_superset "Sung".data _ (by decide)⟩
